import Mathlib

/-!
Verification development for the expenseCat expense tracker.

The definitions below are a shallow embedding of the data model (models.py)
and of the service-layer operations (services.py) the verified claims are
about.  Monetary amounts (SQL `Float` columns) are modelled as rationals,
matching the spec's "exact real-number division" reading of the arithmetic;
row identifiers are naturals.  A database state is a record of tables
(lists of rows).  The transaction discipline of database.py's get_session
(commit on success, rollback and report on any exception) is modelled by
operations that return either the updated state or the original state
together with an error value.
-/

namespace ExpenseCat

/-- users table (models.py User). -/
structure User where
  id : Nat
  username : String
  email : String
deriving DecidableEq

/-- categories table (models.py Category). -/
structure Category where
  id : Nat
  name : String
deriving DecidableEq

/-- groups table together with its user_group membership rows
(models.py Group; members holds the member user ids). -/
structure Group where
  id : Nat
  name : String
  members : List Nat
deriving DecidableEq

/-- expenses table (models.py Expense).  The date column plays no role in
the verified claims and is omitted. -/
structure Expense where
  id : Nat
  user_id : Nat
  category_id : Nat
  amount : ℚ
  description : String
  group_id : Option Nat
  is_shared : Bool
deriving DecidableEq

/-- expense_splits table (models.py ExpenseSplit); the surrogate id column
is omitted (no code path reads it). -/
structure ExpenseSplit where
  expense_id : Nat
  user_id : Nat
  amount : ℚ
  paid : Bool
deriving DecidableEq

/-- budgets table (models.py Budget). -/
structure Budget where
  user_id : Nat
  category_id : Nat
  amount : ℚ
  month : Nat
  year : Nat
deriving DecidableEq

/-- alerts table (models.py Alert). -/
structure Alert where
  user_id : Nat
  category_id : Option Nat
  threshold_percentage : Int
  is_active : Bool
  email_notification : Bool
deriving DecidableEq

/-- The persisted state: one list per table, plus the autoincrement counter
for expense ids. -/
structure DB where
  users : List User
  groups : List Group
  categories : List Category
  expenses : List Expense
  splits : List ExpenseSplit
  next_expense_id : Nat
deriving DecidableEq

/-- Referential well-formedness guaranteed by the schema (models.py):
primary keys are unique, the expense_id / user_id foreign keys of
expense_splits resolve, and the autoincrement counter is fresh. -/
def DB.WF (db : DB) : Prop :=
  (db.expenses.map Expense.id).Nodup ∧
  (db.users.map User.id).Nodup ∧
  (∀ s ∈ db.splits, ∃ e ∈ db.expenses, e.id = s.expense_id) ∧
  (∀ s ∈ db.splits, ∃ u ∈ db.users, u.id = s.user_id) ∧
  (∀ e ∈ db.expenses, e.id < db.next_expense_id) ∧
  (∀ s ∈ db.splits, s.expense_id < db.next_expense_id)

instance (db : DB) : Decidable db.WF := by
  unfold DB.WF; infer_instance

/- ==================== Balance Engine (services.py get_group_balances) -/

/-- Derived balance rows returned by get_group_balances. -/
structure Balance where
  user_id : Nat
  username : String
  total_paid : ℚ
  total_owed : ℚ
  net_balance : ℚ
deriving DecidableEq

/-- The join of services.py lines 743-747: every (split, expense, user)
row where the split's expense belongs to the group.  SQL join semantics:
all combinations of matching expense and user rows for each split. -/
def groupJoin (db : DB) (group_id : Nat) : List (ExpenseSplit × Expense × User) :=
  db.splits.flatMap (fun s =>
    (db.expenses.filter (fun e => e.id == s.expense_id && e.group_id == some group_id)).flatMap
      (fun e => (db.users.filter (fun u => u.id == s.user_id)).map (fun u => (s, e, u))))

/-- Fresh balance entry (services.py lines 752-759). -/
def initBalance (u : User) : Balance :=
  ⟨u.id, u.username, 0, 0, 0⟩

/-- One accumulation step (services.py lines 761-766): credit the expense
amount when this split is the payer's own, and debit the split amount. -/
def bumpBalance (s : ExpenseSplit) (e : Expense) (b : Balance) : Balance :=
  { b with
    total_paid := b.total_paid + (if s.paid then e.amount else 0),
    total_owed := b.total_owed + s.amount }

/-- The Python dict keyed by user.id, in insertion order: update the entry
of this row's user, creating it first if absent (services.py 751-766). -/
def insertRow : List Balance → ExpenseSplit × Expense × User → List Balance
  | [], (s, e, u) => [bumpBalance s e (initBalance u)]
  | b :: rest, (s, e, u) =>
      if b.user_id = u.id then bumpBalance s e b :: rest
      else b :: insertRow rest (s, e, u)

/-- get_group_balances (services.py lines 731-774): accumulate over the
join, then set net_balance = total_paid - total_owed (lines 769-772). -/
def getGroupBalances (db : DB) (group_id : Nat) : List Balance :=
  ((groupJoin db group_id).foldl insertRow []).map
    (fun b => { b with net_balance := b.total_paid - b.total_owed })

/- ==================== Split Allocator (services.py add_shared_expense) -/

/-- Failure modes of add_shared_expense, each caught by its
`except Exception` handler after the session rolls back:
category/group lookup misses return None early; a non-positive amount
violates the positive_expense_amount CHECK when the expense row is
flushed; equal splitting over an empty member list raises
ZeroDivisionError; a negative custom split violates the
non_negative_split_amount CHECK at commit. -/
inductive AddError where
  | categoryNotFound
  | groupNotFound
  | checkConstraint
  | zeroDivision
deriving DecidableEq

/-- The split-creation loops of add_shared_expense (services.py lines
700-722), the spec's Split Allocator: equal mode divides the amount by
the member count (ZeroDivisionError when there are no members) and flags
the payer's row paid; custom mode takes the rows straight from the
mapping (an absent mapping yields no rows at all). -/
def allocSplits (expense_id payer_id : Nat) (amount : ℚ) (members : List Nat)
    (split_equally : Bool) (custom_splits : Option (List (Nat × ℚ))) :
    Except AddError (List ExpenseSplit) :=
  if split_equally then
    if members.length = 0 then .error .zeroDivision
    else .ok (members.map (fun m =>
      ⟨expense_id, m, amount / (members.length : ℚ), m == payer_id⟩))
  else
    match custom_splits with
    | some cs => .ok (cs.map (fun p => ⟨expense_id, p.1, p.2, p.1 == payer_id⟩))
    | none => .ok []

/-- The expense row built at services.py lines 688-696. -/
def mkSharedExpense (db : DB) (category : Category) (user_id : Nat)
    (amount : ℚ) (description : String) (group_id : Nat) : Expense :=
  ⟨db.next_expense_id, user_id, category.id, amount, description,
    some group_id, true⟩

/-- add_shared_expense (services.py lines 655-729).  Returns the state
after the transaction together with the outcome; every error path leaves
the state unchanged (get_session rolls the whole unit of work back).
A non-positive amount trips the positive_expense_amount CHECK when the
expense row is flushed (before any split is created); a negative custom
split trips the non_negative_split_amount CHECK at commit.
custom_splits models the Python dict as an association list. -/
def addSharedExpense (db : DB) (user_id group_id : Nat) (category_name : String)
    (amount : ℚ) (description : String) (split_equally : Bool)
    (custom_splits : Option (List (Nat × ℚ))) : DB × Except AddError Expense :=
  match db.categories.find? (fun c => c.name == category_name) with
  | none => (db, .error .categoryNotFound)
  | some category =>
    match db.groups.find? (fun g => g.id == group_id) with
    | none => (db, .error .groupNotFound)
    | some group =>
      if amount ≤ 0 then (db, .error .checkConstraint)
      else
        match allocSplits db.next_expense_id user_id amount group.members
            split_equally custom_splits with
        | .error err => (db, .error err)
        | .ok ns =>
          if ns.any (fun s => decide (s.amount < 0)) then (db, .error .checkConstraint)
          else
            ({ db with
                expenses := db.expenses ++
                  [mkSharedExpense db category user_id amount description group_id],
                splits := db.splits ++ ns,
                next_expense_id := db.next_expense_id + 1 },
              .ok (mkSharedExpense db category user_id amount description group_id))

/- ==================== Budget Alert Evaluator (services.py _check_budget_alerts) -/

/-- ZeroDivisionError raised by the percentage_left computation. -/
inductive AlertError where
  | zeroDivision
deriving DecidableEq

/-- Result of one _check_budget_alerts evaluation: either the exceeded
classification (with the matching alerts that are email candidates), or
the threshold classification (with the alerts that fired). -/
inductive AlertOutcome where
  | exceeded (overspent : ℚ) (notified : List Alert)
  | thresholds (percentage_left : ℚ) (fired : List Alert)
deriving DecidableEq

/-- An alert row matching the evaluation's user and category: same user,
active, and either the same category or the all-categories (null) key
(services.py lines 502-510 / 521-528). -/
def alertMatches (user_id category_id : Nat) (a : Alert) : Bool :=
  a.user_id == user_id && a.is_active &&
    (a.category_id == some category_id || a.category_id == none)

/-- _check_budget_alerts (services.py lines 453-542) after the aggregate
queries: `spent` is the month's expense sum for the user and category.
If spent > budget.amount the evaluation classifies as exceeded (line 493)
and only email-enabled matching alerts are collected (lines 502-510);
otherwise percentage_left = (budget.amount - spent) / budget.amount * 100
is computed (line 519) — raising ZeroDivisionError when budget.amount = 0,
there is no guard — and every matching active alert with
percentage_left <= threshold_percentage fires (lines 530-536). -/
def checkBudgetAlerts (budget : Budget) (spent : ℚ) (user_id category_id : Nat)
    (alerts : List Alert) : Except AlertError AlertOutcome :=
  if budget.amount < spent then
    .ok (.exceeded (spent - budget.amount)
      (alerts.filter (fun a => alertMatches user_id category_id a && a.email_notification)))
  else
    if budget.amount = 0 then .error .zeroDivision
    else
      let percentage_left := (budget.amount - spent) / budget.amount * 100
      .ok (.thresholds percentage_left
        ((alerts.filter (alertMatches user_id category_id)).filter
          (fun a => decide (percentage_left ≤ (a.threshold_percentage : ℚ)))))

/- ==================== Alert upsert (services.py set_custom_alert) -/

/-- The existing-alert query of set_custom_alert (services.py 424-428):
same user, and same category key (the null key when no category given). -/
def alertKeyMatches (user_id : Nat) (category_id : Option Nat) (a : Alert) : Bool :=
  a.user_id == user_id &&
    (match category_id with
     | some cid => a.category_id == some cid
     | none => a.category_id == none)

/-- In-place update of an existing alert row (services.py 432-436):
overwrite threshold and email flag and force is_active back to true. -/
def applyAlertSettings (threshold_percentage : Int) (email : Bool) (a : Alert) : Alert :=
  { a with
    threshold_percentage := threshold_percentage,
    email_notification := email,
    is_active := true }

/-- Update the first row satisfying p (the query's .first()), leaving all
other rows untouched; none when no row matches. -/
def updateFirstAlert (p : Alert → Bool) (f : Alert → Alert) : List Alert → Option (List Alert)
  | [] => none
  | a :: rest =>
      if p a then some (f a :: rest)
      else (updateFirstAlert p f rest).map (a :: ·)

/-- set_custom_alert (services.py lines 398-451), acting on the alerts
table: update the first row with the same (user, category) key, or append
a fresh row (is_active defaults to true in models.py). -/
def setCustomAlert (alerts : List Alert) (user_id : Nat) (category_id : Option Nat)
    (threshold_percentage : Int) (email : Bool) : List Alert :=
  match updateFirstAlert (alertKeyMatches user_id category_id)
      (applyAlertSettings threshold_percentage email) alerts with
  | some updated => updated
  | none => alerts ++ [⟨user_id, category_id, threshold_percentage, true, email⟩]

/- ==================== Sample rows used to instantiate theorems -/

/-- A persisted budget row with a positive amount. -/
def sampleBudget : Budget := ⟨1, 1, 100, 5, 2024⟩

/-- A budget row with amount zero (rejected by the positive_amount CHECK at
creation; used to probe the defensive-guard claim). -/
def zeroBudget : Budget := ⟨1, 1, 0, 5, 2024⟩

/-- An active all-categories alert with threshold 10. -/
def alert10 : Alert := ⟨1, none, 10, true, true⟩

/-- An active all-categories alert with threshold 0 (boundary case). -/
def alert0 : Alert := ⟨1, none, 0, true, true⟩

/- ==================== Budget Alert Evaluator theorems (C7, C8, C9) -/

/-- A three-member group, its category, and a fresh store holding them. -/
def wGroup : Group := ⟨1, "trip", [1, 2, 3]⟩

/-- The Food category row of the sample store. -/
def wCat : Category := ⟨1, "Food"⟩

/-- Sample store: three users, one group of all three, one category. -/
def wdb : DB :=
  ⟨[⟨1, "alice", "alice@x"⟩, ⟨2, "bob", "bob@x"⟩, ⟨3, "carol", "carol@x"⟩],
   [wGroup], [wCat], [], [], 1⟩

/-- Store used to exhibit the missing-paid-split behavior of claim C4. -/
def c4db : DB :=
  ⟨[⟨1, "dave", "dave@x"⟩, ⟨2, "erin", "erin@x"⟩],
   [⟨1, "flat", [1, 2]⟩], [⟨1, "Food"⟩], [], [], 1⟩

/-- Split table after the custom-mode expense used in the C4 witness. -/
def c4wdb' : DB :=
  ⟨wdb.users, wdb.groups, wdb.categories,
   [⟨1, 1, 1, 100, "", some 1, true⟩],
   [⟨1, 1, 60, true⟩, ⟨1, 2, 40, false⟩], 2⟩

/-- A store whose only group has no members at all. -/
def c5db : DB :=
  ⟨[⟨1, "ann", "ann@x"⟩], [⟨1, "solo", []⟩], [⟨1, "Food"⟩], [], [], 1⟩

/-- Store used to exhibit the splitless-expense behavior of claim C6. -/
def c6db : DB :=
  ⟨[⟨1, "carl", "carl@x"⟩, ⟨2, "dana", "dana@x"⟩],
   [⟨1, "trip2", [1, 2]⟩], [⟨1, "Food"⟩], [], [], 1⟩

/-- Result state of the custom-mode success used in the C6 witness. -/
def c6wdb' : DB :=
  ⟨wdb.users, wdb.groups, wdb.categories,
   [⟨1, 1, 1, 80, "", some 1, true⟩],
   [⟨1, 1, 40, true⟩, ⟨1, 2, 40, false⟩], 2⟩

/-- The expense row a split references (unique under the schema's
foreign-key and primary-key constraints). -/
def splitExpense (db : DB) (s : ExpenseSplit) : Option Expense :=
  db.expenses.find? (fun e => e.id == s.expense_id)

/-- Whether a split belongs to the given group: its expense does. -/
def splitInGroup (db : DB) (group_id : Nat) (s : ExpenseSplit) : Bool :=
  match splitExpense db s with
  | some e => e.group_id == some group_id
  | none => false

/-- Amount of the expense a split references (0 when dangling). -/
def splitExpenseAmount (db : DB) (s : ExpenseSplit) : ℚ :=
  ((splitExpense db s).map Expense.amount).getD 0

/-- A user's split rows within a group, in table order. -/
def userGroupSplits (db : DB) (group_id user_id : Nat) : List ExpenseSplit :=
  db.splits.filter (fun s => s.user_id == user_id && splitInGroup db group_id s)

/-- The spec's total_paid: sum of expense.amount over the user's paid
split rows of the group. -/
def totalPaidSpec (db : DB) (group_id user_id : Nat) : ℚ :=
  (((userGroupSplits db group_id user_id).filter (fun s => s.paid)).map
    (splitExpenseAmount db)).sum

/-- The spec's total_owed: sum of split.amount over all the user's split
rows of the group. -/
def totalOwedSpec (db : DB) (group_id user_id : Nat) : ℚ :=
  ((userGroupSplits db group_id user_id).map ExpenseSplit.amount).sum

/-- Closed form of one split's contribution to the join when keys are
unique: at most one (split, expense, user) row. -/
def joinedRow (db : DB) (group_id : Nat) (s : ExpenseSplit) :
    List (ExpenseSplit × Expense × User) :=
  match db.expenses.find? (fun e => e.id == s.expense_id),
      db.users.find? (fun u => u.id == s.user_id) with
  | some e, some u => if e.group_id == some group_id then [(s, e, u)] else []
  | _, _ => []

/-- A split's paid contribution as read off the ledger: the expense amount
when this is the payer's covering split of a group expense. -/
def paidContribution (db : DB) (group_id : Nat) (s : ExpenseSplit) : ℚ :=
  match splitExpense db s with
  | some e => if e.group_id == some group_id then (if s.paid then e.amount else 0) else 0
  | none => 0

/-- A split's owed contribution: its amount when it is a group split. -/
def owedContribution (db : DB) (group_id : Nat) (s : ExpenseSplit) : ℚ :=
  match splitExpense db s with
  | some e => if e.group_id == some group_id then s.amount else 0
  | none => 0

/-- Two users, a two-member group, empty ledger: the base store for the
claim C1 counterexample. -/
def c1db : DB :=
  ⟨[⟨1, "gabe", "gabe@x"⟩, ⟨2, "hana", "hana@x"⟩],
   [⟨1, "ski", [1, 2]⟩], [⟨1, "Food"⟩], [], [], 1⟩

/-- The store after the unreconciled custom-split expense: amount 100 but
a lone split of 80, flagged paid (reachable through add_shared_expense). -/
def c1db' : DB :=
  ⟨[⟨1, "gabe", "gabe@x"⟩, ⟨2, "hana", "hana@x"⟩],
   [⟨1, "ski", [1, 2]⟩], [⟨1, "Food"⟩],
   [⟨1, 1, 1, 100, "", some 1, true⟩], [⟨1, 1, 80, true⟩], 2⟩

/-- User ids of the accumulated balance rows, in insertion order. -/
def buids (l : List Balance) : List Nat := l.map Balance.user_id

/-- The user id a join row is keyed on (the joined user's id). -/
def tripleUid (t : ExpenseSplit × Expense × User) : Nat := t.2.2.id

/-- A join row's contribution to its user's total_paid. -/
def pContrib (t : ExpenseSplit × Expense × User) : ℚ :=
  if t.1.paid then t.2.1.amount else 0

/-- Per-user paid total over a prefix of join rows. -/
def pSum (ts : List (ExpenseSplit × Expense × User)) (uid : Nat) : ℚ :=
  (ts.map (fun t => if tripleUid t = uid then pContrib t else 0)).sum

/-- Per-user owed total over a prefix of join rows. -/
def oSum (ts : List (ExpenseSplit × Expense × User)) (uid : Nat) : ℚ :=
  (ts.map (fun t => if tripleUid t = uid then t.1.amount else 0)).sum

/-- Claim C7: whenever spent exceeds the budget amount, the evaluation
classifies as Exceeded with overspent = spent - budget.amount, and the
threshold regime is skipped entirely (the two regimes are mutually
exclusive, Exceeded taking precedence). -/
theorem checkBudgetAlerts_exceeded (budget : Budget) (spent : ℚ)
    (user_id category_id : Nat) (alerts : List Alert)
    (h : budget.amount < spent) :
    checkBudgetAlerts budget spent user_id category_id alerts =
      .ok (.exceeded (spent - budget.amount)
        (alerts.filter (fun a => alertMatches user_id category_id a && a.email_notification))) ∧
    ∀ pl fired,
      checkBudgetAlerts budget spent user_id category_id alerts ≠
        .ok (.thresholds pl fired) := by
  unfold checkBudgetAlerts
  rw [if_pos h]
  exact ⟨rfl, by intro pl fired hcontra; simp at hcontra⟩

/-- Claim C7 witness: budget 100, spent 120 gives Exceeded(overspent 20)
and no threshold outcome. -/
theorem checkBudgetAlerts_exceeded_witness :
    sampleBudget.amount < 120 ∧
    (checkBudgetAlerts sampleBudget 120 1 1 [alert10] =
        .ok (.exceeded (120 - sampleBudget.amount)
          ([alert10].filter (fun a => alertMatches 1 1 a && a.email_notification))) ∧
      ∀ pl fired,
        checkBudgetAlerts sampleBudget 120 1 1 [alert10] ≠ .ok (.thresholds pl fired)) :=
  ⟨by norm_num [sampleBudget],
   checkBudgetAlerts_exceeded sampleBudget 120 1 1 [alert10] (by norm_num [sampleBudget])⟩

/-- Claim C8: with spent ≤ budget.amount (and the amount positive, so the
division is defined), the evaluation classifies as thresholds with
percentage_left = (budget.amount - spent) / budget.amount * 100, and an
alert fires exactly when it belongs to the user, is active, matches the
category (or is the all-categories alert) and percentage_left is at most
its threshold percentage — the boundary percentage_left = threshold
fires, the comparison being inclusive. -/
theorem checkBudgetAlerts_threshold_iff (budget : Budget) (spent : ℚ)
    (user_id category_id : Nat) (alerts : List Alert)
    (h1 : spent ≤ budget.amount) (h2 : 0 < budget.amount) :
    ∃ fired,
      checkBudgetAlerts budget spent user_id category_id alerts =
        .ok (.thresholds ((budget.amount - spent) / budget.amount * 100) fired) ∧
      ∀ a, a ∈ fired ↔
        a ∈ alerts ∧ a.user_id = user_id ∧ a.is_active = true ∧
          (a.category_id = some category_id ∨ a.category_id = none) ∧
          (budget.amount - spent) / budget.amount * 100 ≤ (a.threshold_percentage : ℚ) := by
  unfold checkBudgetAlerts
  rw [if_neg (not_lt.mpr h1), if_neg (ne_of_gt h2)]
  refine ⟨_, rfl, fun a => ?_⟩
  simp only [List.mem_filter, alertMatches, Bool.and_eq_true, Bool.or_eq_true,
    beq_iff_eq, decide_eq_true_eq]
  tauto

/-- Claim C8 witness: budget 100, spent 100 gives percentage_left 0, and
the boundary alert with threshold 0 fires. -/
theorem checkBudgetAlerts_threshold_iff_witness :
    ((100 : ℚ) ≤ sampleBudget.amount ∧ 0 < sampleBudget.amount) ∧
    ∃ fired,
      checkBudgetAlerts sampleBudget 100 1 1 [alert0] =
        .ok (.thresholds ((sampleBudget.amount - 100) / sampleBudget.amount * 100) fired) ∧
      alert0 ∈ fired := by
  refine ⟨⟨by norm_num [sampleBudget], by norm_num [sampleBudget]⟩, ?_⟩
  obtain ⟨fired, heq, hiff⟩ :=
    checkBudgetAlerts_threshold_iff sampleBudget 100 1 1 [alert0]
      (by norm_num [sampleBudget]) (by norm_num [sampleBudget])
  refine ⟨fired, heq, (hiff alert0).mpr ?_⟩
  refine ⟨by simp, rfl, rfl, Or.inr rfl, ?_⟩
  norm_num [sampleBudget, alert0]

/-- Claim C9 counterexample: with budget.amount = 0 and spent = 0 the
threshold computation is not skipped as a no-op — the division raises
ZeroDivisionError (there is no zero guard in the code), aborting the
evaluation instead of completing it. -/
theorem checkBudgetAlerts_zero_budget_raises :
    checkBudgetAlerts zeroBudget 0 1 1 [alert10] = .error .zeroDivision := by
  norm_num [checkBudgetAlerts, zeroBudget]

/-- Claim C9 amended: the code has no zero guard; an evaluation with
budget.amount = 0 and spent ≤ 0 raises ZeroDivisionError rather than
skipping.  No division by zero ever occurs when budget.amount is
positive — which the positive-amount creation constraint guarantees for
every persisted budget — the evaluation then always completes. -/
theorem checkBudgetAlerts_pos_budget_ok (budget : Budget) (spent : ℚ)
    (user_id category_id : Nat) (alerts : List Alert)
    (h : 0 < budget.amount) :
    ∃ out, checkBudgetAlerts budget spent user_id category_id alerts = .ok out := by
  unfold checkBudgetAlerts
  by_cases hc : budget.amount < spent
  · exact ⟨_, by rw [if_pos hc]⟩
  · rw [if_neg hc, if_neg (ne_of_gt h)]
    exact ⟨_, rfl⟩

/-- Claim C9 amended witness: a positive budget amount always yields an
ok outcome. -/
theorem checkBudgetAlerts_pos_budget_ok_witness :
    (0 : ℚ) < sampleBudget.amount ∧
    ∃ out, checkBudgetAlerts sampleBudget 95 1 1 [alert10] = .ok out :=
  ⟨by norm_num [sampleBudget],
   checkBudgetAlerts_pos_budget_ok sampleBudget 95 1 1 [alert10]
     (by norm_num [sampleBudget])⟩

/- ==================== set_custom_alert theorems (C10) -/

/-- When some row satisfies p, updateFirstAlert rewrites exactly the first
such row and keeps every other row. -/
theorem updateFirstAlert_spec (p : Alert → Bool) (f : Alert → Alert) :
    ∀ alerts : List Alert, (∃ a ∈ alerts, p a = true) →
      ∃ pre a post,
        alerts = pre ++ a :: post ∧
        (∀ x ∈ pre, p x = false) ∧ p a = true ∧
        updateFirstAlert p f alerts = some (pre ++ f a :: post)
  | [], h => absurd h (by simp)
  | b :: rest, h => by
      by_cases hb : p b
      · exact ⟨[], b, rest, rfl, by simp, hb, by simp [updateFirstAlert, hb]⟩
      · have hrest : ∃ a ∈ rest, p a = true := by
          obtain ⟨a, ha, hpa⟩ := h
          rcases List.mem_cons.mp ha with rfl | ha'
          · exact absurd hpa (by simpa using hb)
          · exact ⟨a, ha', hpa⟩
        obtain ⟨pre, a, post, hsplit, hpre, hpa, heq⟩ := updateFirstAlert_spec p f rest hrest
        refine ⟨b :: pre, a, post, by simp [hsplit], ?_, hpa, ?_⟩
        · intro x hx
          rcases List.mem_cons.mp hx with rfl | hx'
          · simpa using hb
          · exact hpre x hx'
        · simp [updateFirstAlert, hb, heq]

/-- Claim C10: when an alert row for the same user and same category key
(including the null all-categories key) already exists, set_custom_alert
updates that row in place — threshold_percentage and email_notification
are overwritten and is_active is unconditionally forced back to true —
every other row is untouched and no second row is created for the key
(the table keeps the same length). -/
theorem setCustomAlert_updates_existing (alerts : List Alert) (user_id : Nat)
    (category_id : Option Nat) (threshold_percentage : Int) (email : Bool)
    (h : ∃ a ∈ alerts, alertKeyMatches user_id category_id a = true) :
    ∃ pre a post,
      alerts = pre ++ a :: post ∧
      (∀ x ∈ pre, alertKeyMatches user_id category_id x = false) ∧
      alertKeyMatches user_id category_id a = true ∧
      setCustomAlert alerts user_id category_id threshold_percentage email =
        pre ++
          { a with
            threshold_percentage := threshold_percentage,
            email_notification := email,
            is_active := true } :: post ∧
      (setCustomAlert alerts user_id category_id threshold_percentage email).length =
        alerts.length := by
  obtain ⟨pre, a, post, hsplit, hpre, hpa, heq⟩ :=
    updateFirstAlert_spec (alertKeyMatches user_id category_id)
      (applyAlertSettings threshold_percentage email) alerts h
  have hres :
      setCustomAlert alerts user_id category_id threshold_percentage email =
        pre ++
          { a with
            threshold_percentage := threshold_percentage,
            email_notification := email,
            is_active := true } :: post := by
    simp [setCustomAlert, heq, applyAlertSettings]
  refine ⟨pre, a, post, hsplit, hpre, hpa, hres, ?_⟩
  rw [hres, hsplit]
  simp

/-- Claim C10 witness: an existing deactivated all-categories alert row is
updated in place (and reactivated); the second row, keyed on category 2,
is untouched, and no row is added. -/
theorem setCustomAlert_updates_existing_witness :
    (∃ a ∈ [(⟨1, none, 10, false, false⟩ : Alert), ⟨1, some 2, 20, true, true⟩],
        alertKeyMatches 1 none a = true) ∧
    ∃ pre a post,
      [(⟨1, none, 10, false, false⟩ : Alert), ⟨1, some 2, 20, true, true⟩] =
        pre ++ a :: post ∧
      (∀ x ∈ pre, alertKeyMatches 1 none x = false) ∧
      alertKeyMatches 1 none a = true ∧
      setCustomAlert [⟨1, none, 10, false, false⟩, ⟨1, some 2, 20, true, true⟩] 1 none 30 true =
        pre ++
          { a with
            threshold_percentage := 30,
            email_notification := true,
            is_active := true } :: post ∧
      (setCustomAlert [⟨1, none, 10, false, false⟩, ⟨1, some 2, 20, true, true⟩] 1 none 30 true).length =
        [(⟨1, none, 10, false, false⟩ : Alert), ⟨1, some 2, 20, true, true⟩].length :=
  ⟨by decide,
   setCustomAlert_updates_existing
     [⟨1, none, 10, false, false⟩, ⟨1, some 2, 20, true, true⟩] 1 none 30 true
     (by decide)⟩

/- ==================== add_shared_expense: helper lemmas -/

/-- In a duplicate-free list of naturals, filtering on equality with a
member keeps exactly that member. -/
theorem filter_beq_singleton {l : List Nat} (hnd : l.Nodup) {m : Nat} (hm : m ∈ l) :
    l.filter (fun x => x == m) = [m] := by
  induction l with
  | nil => cases hm
  | cons a t ih =>
    by_cases ham : a = m
    · have hmt : m ∉ t := ham ▸ (List.nodup_cons.mp hnd).1
      have ht : t.filter (fun x => x == m) = [] := by
        rw [List.filter_eq_nil_iff]
        intro x hx
        simp only [beq_iff_eq]
        exact fun hxm => hmt (hxm ▸ hx)
      rw [ham]
      simp [List.filter_cons, ht]
    · have hm' : m ∈ t := by
        rcases List.mem_cons.mp hm with h | h
        · exact absurd h.symm ham
        · exact h
      have hne : ¬(a == m) = true := by
        simp only [beq_iff_eq]
        exact ham
      simp [List.filter_cons, hne, ih (List.nodup_cons.mp hnd).2 hm']

/-- Characterization of every successful add_shared_expense run: the
category and the group were found, the amount passed the positivity
CHECK, the returned expense is the freshly numbered shared expense, the
persisted splits are the allocator's (equal split over the members, or
the rows of the custom mapping, or none when no mapping was supplied),
and the new state appends the expense and its splits in one commit. -/
theorem addSharedExpense_ok_elim
    {db : DB} {user_id group_id : Nat} {category_name : String} {amount : ℚ}
    {description : String} {split_equally : Bool}
    {custom_splits : Option (List (Nat × ℚ))} {db' : DB} {e : Expense}
    (hok : addSharedExpense db user_id group_id category_name amount description
      split_equally custom_splits = (db', .ok e)) :
    ∃ category group ns,
      db.categories.find? (fun c => c.name == category_name) = some category ∧
      db.groups.find? (fun g => g.id == group_id) = some group ∧
      0 < amount ∧
      e = ⟨db.next_expense_id, user_id, category.id, amount, description,
        some group_id, true⟩ ∧
      ((split_equally = true ∧ group.members ≠ [] ∧
          ns = group.members.map (fun m =>
            ⟨db.next_expense_id, m, amount / (group.members.length : ℚ), m == user_id⟩)) ∨
        (split_equally = false ∧
          ((∃ cs, custom_splits = some cs ∧
              ns = cs.map (fun p => ⟨db.next_expense_id, p.1, p.2, p.1 == user_id⟩)) ∨
            (custom_splits = none ∧ ns = [])))) ∧
      db' = { db with
        expenses := db.expenses ++ [e],
        splits := db.splits ++ ns,
        next_expense_id := db.next_expense_id + 1 } := by
  have halloc : ∀ {ns : List ExpenseSplit} {members : List Nat},
      allocSplits db.next_expense_id user_id amount members split_equally
        custom_splits = .ok ns →
      (split_equally = true ∧ members ≠ [] ∧
          ns = members.map (fun m =>
            ⟨db.next_expense_id, m, amount / (members.length : ℚ), m == user_id⟩)) ∨
        (split_equally = false ∧
          ((∃ cs, custom_splits = some cs ∧
              ns = cs.map (fun p => ⟨db.next_expense_id, p.1, p.2, p.1 == user_id⟩)) ∨
            (custom_splits = none ∧ ns = []))) := by
    intro ns members h
    cases hsp : split_equally with
    | true =>
      subst hsp
      by_cases hlen : members.length = 0
      · unfold allocSplits at h
        rw [if_pos rfl, if_pos hlen] at h
        exact absurd h (by simp)
      · unfold allocSplits at h
        rw [if_pos rfl, if_neg hlen] at h
        exact Or.inl ⟨rfl, fun hnil => hlen (by rw [hnil]; rfl),
          (Except.ok.inj h).symm⟩
    | false =>
      subst hsp
      cases hcs : custom_splits with
      | none =>
        subst hcs
        unfold allocSplits at h
        rw [if_neg (by simp)] at h
        exact Or.inr ⟨rfl, Or.inr ⟨rfl, (Except.ok.inj h).symm⟩⟩
      | some cs =>
        subst hcs
        unfold allocSplits at h
        rw [if_neg (by simp)] at h
        exact Or.inr ⟨rfl, Or.inl ⟨cs, rfl, (Except.ok.inj h).symm⟩⟩
  unfold addSharedExpense at hok
  split at hok
  · exact absurd (congrArg Prod.snd hok) (by simp)
  rename_i category hfc
  split at hok
  · exact absurd (congrArg Prod.snd hok) (by simp)
  rename_i group hfg
  split at hok
  · exact absurd (congrArg Prod.snd hok) (by simp)
  rename_i hA
  split at hok
  · exact absurd (congrArg Prod.snd hok) (by simp)
  rename_i ns hns
  split at hok
  · exact absurd (congrArg Prod.snd hok) (by simp)
  rename_i hneg
  obtain ⟨hdb, he⟩ := Prod.mk.inj hok
  have he' := Except.ok.inj he
  refine ⟨category, group, ns, hfc, hfg, not_le.mp hA, he'.symm, halloc hns, ?_⟩
  rw [← hdb, ← he']

/- ==================== add_shared_expense theorems (C3, C4, C5, C6) -/

/-- Claim C3: adding a shared expense of amount A in equal-split mode to a
group of N ≥ 1 members gives every member exactly one split row of amount
A / N (plain division, no remainder redistribution), with the payer's row
flagged paid and every other member's row unflagged.  (The paid flag of
the row for member m is literally m == payer.) -/
theorem addSharedExpense_equal_split (db : DB) (user_id group_id : Nat)
    (category_name : String) (amount : ℚ) (description : String)
    (category : Category) (group : Group)
    (hwf : db.WF)
    (hcat : db.categories.find? (fun c => c.name == category_name) = some category)
    (hgrp : db.groups.find? (fun g => g.id == group_id) = some group)
    (hne : group.members ≠ [])
    (hnd : group.members.Nodup)
    (hpos : 0 < amount) :
    ∃ db' e,
      addSharedExpense db user_id group_id category_name amount description
        true none = (db', .ok e) ∧
      e.amount = amount ∧
      db'.splits = db.splits ++ group.members.map (fun m =>
        ⟨e.id, m, amount / (group.members.length : ℚ), m == user_id⟩) ∧
      ∀ m ∈ group.members,
        db'.splits.filter (fun s => s.expense_id == e.id && s.user_id == m) =
          [⟨e.id, m, amount / (group.members.length : ℚ), m == user_id⟩] := by
  have hlen : group.members.length ≠ 0 := fun h => hne (List.length_eq_zero.mp h)
  have hposq : (0 : ℚ) < (group.members.length : ℚ) := by
    exact_mod_cast Nat.pos_of_ne_zero hlen
  have hsplitpos : 0 < amount / (group.members.length : ℚ) := div_pos hpos hposq
  have halloc : allocSplits db.next_expense_id user_id amount group.members
      true none = .ok (group.members.map (fun m =>
        ⟨db.next_expense_id, m, amount / (group.members.length : ℚ), m == user_id⟩)) := by
    unfold allocSplits
    rw [if_pos rfl, if_neg hlen]
  have hany : ((group.members.map (fun m =>
      (⟨db.next_expense_id, m, amount / (group.members.length : ℚ), m == user_id⟩ :
        ExpenseSplit))).any (fun s => decide (s.amount < 0))) = false := by
    rw [Bool.eq_false_iff]
    intro hcontra
    rw [List.any_eq_true] at hcontra
    obtain ⟨s, hs, hneg⟩ := hcontra
    obtain ⟨m, _, rfl⟩ := List.mem_map.mp hs
    rw [decide_eq_true_eq] at hneg
    exact absurd hneg (not_lt.mpr (le_of_lt hsplitpos))
  have hres : addSharedExpense db user_id group_id category_name amount description
      true none =
      ({ db with
          expenses := db.expenses ++
            [mkSharedExpense db category user_id amount description group_id],
          splits := db.splits ++ group.members.map (fun m =>
            ⟨db.next_expense_id, m, amount / (group.members.length : ℚ), m == user_id⟩),
          next_expense_id := db.next_expense_id + 1 },
        .ok (mkSharedExpense db category user_id amount description group_id)) := by
    simp only [addSharedExpense, hcat, hgrp, halloc, hany, if_neg (not_le.mpr hpos),
      Bool.false_eq_true, if_false]
  refine ⟨_, _, hres, rfl, rfl, ?_⟩
  intro m hm
  show (db.splits ++ group.members.map (fun m' =>
      (⟨db.next_expense_id, m', amount / (group.members.length : ℚ), m' == user_id⟩ :
        ExpenseSplit))).filter
      (fun s => s.expense_id == db.next_expense_id && s.user_id == m) = _
  rw [List.filter_append]
  have hold : db.splits.filter
      (fun s => s.expense_id == db.next_expense_id && s.user_id == m) = [] := by
    rw [List.filter_eq_nil_iff]
    intro s hs
    have hlt := hwf.2.2.2.2.2 s hs
    simp only [Bool.and_eq_true, beq_iff_eq, not_and]
    intro hse
    exact absurd hse (Nat.ne_of_lt hlt)
  have hnew : (group.members.map (fun m' =>
      (⟨db.next_expense_id, m', amount / (group.members.length : ℚ), m' == user_id⟩ :
        ExpenseSplit))).filter
      (fun s => s.expense_id == db.next_expense_id && s.user_id == m) =
      [⟨db.next_expense_id, m, amount / (group.members.length : ℚ), m == user_id⟩] := by
    rw [List.filter_map]
    have hcong : group.members.filter ((fun s =>
        s.expense_id == db.next_expense_id && s.user_id == m) ∘ (fun m' =>
          (⟨db.next_expense_id, m', amount / (group.members.length : ℚ),
            m' == user_id⟩ : ExpenseSplit))) =
        group.members.filter (fun x => x == m) := by
      apply List.filter_congr
      intro x _
      simp
    rw [hcong, filter_beq_singleton hnd hm]
    rfl
  rw [hold, hnew, List.nil_append]
  rfl

/-- Claim C3 witness: amount 90 over the three-member group — every member
gets one split of 90/3, the payer's flagged paid. -/
theorem addSharedExpense_equal_split_witness :
    (wdb.WF ∧ wGroup.members ≠ [] ∧ wGroup.members.Nodup ∧ (0 : ℚ) < 90) ∧
    ∃ db' e,
      addSharedExpense wdb 1 1 "Food" 90 "" true none = (db', .ok e) ∧
      e.amount = 90 ∧
      db'.splits = wdb.splits ++ wGroup.members.map (fun m =>
        ⟨e.id, m, 90 / (wGroup.members.length : ℚ), m == 1⟩) ∧
      ∀ m ∈ wGroup.members,
        db'.splits.filter (fun s => s.expense_id == e.id && s.user_id == m) =
          [⟨e.id, m, 90 / (wGroup.members.length : ℚ), m == 1⟩] :=
  ⟨⟨by decide, by decide, by decide, by norm_num⟩,
   addSharedExpense_equal_split wdb 1 1 "Food" 90 "" wCat wGroup
     (by decide) (by decide) (by decide) (by decide) (by decide) (by norm_num)⟩

/-- Counting matches of a member in a duplicate-free list: one when
present, zero otherwise. -/
theorem filter_beq_length {l : List Nat} (hnd : l.Nodup) (u : Nat) :
    (l.filter (fun x => x == u)).length = if u ∈ l then 1 else 0 := by
  by_cases hu : u ∈ l
  · rw [filter_beq_singleton hnd hu, if_pos hu]
    rfl
  · rw [if_neg hu, List.length_eq_zero, List.filter_eq_nil_iff]
    intro x hx
    simp only [beq_iff_eq]
    exact fun hxu => hu (hxu ▸ hx)

/-- Claim C4 amended: for every persisted shared expense, every paid split
row belongs to the payer and there is at most one paid split row; there
is exactly one precisely when the payer is among the group members (equal
mode) or among the keys of the custom mapping (custom mode).  The
original claim's "exactly one" fails when the payer is absent — in
particular in custom mode with no mapping, which persists no splits at
all. -/
theorem addSharedExpense_paid_splits (db : DB) (user_id group_id : Nat)
    (category_name : String) (amount : ℚ) (description : String)
    (split_equally : Bool) (custom_splits : Option (List (Nat × ℚ)))
    (db' : DB) (e : Expense)
    (hwf : db.WF)
    (hndm : ∀ g ∈ db.groups, g.members.Nodup)
    (hndc : ∀ cs, custom_splits = some cs → (cs.map Prod.fst).Nodup)
    (hok : addSharedExpense db user_id group_id category_name amount description
      split_equally custom_splits = (db', .ok e)) :
    (∀ s ∈ db'.splits, s.expense_id = e.id → s.paid = true → s.user_id = user_id) ∧
    (db'.splits.filter (fun s => s.expense_id == e.id && s.paid)).length ≤ 1 ∧
    (split_equally = true →
      ∀ g, db.groups.find? (fun g' => g'.id == group_id) = some g →
        (user_id ∈ g.members ↔
          (db'.splits.filter (fun s => s.expense_id == e.id && s.paid)).length = 1)) ∧
    (∀ cs, custom_splits = some cs → split_equally = false →
      (user_id ∈ cs.map Prod.fst ↔
        (db'.splits.filter (fun s => s.expense_id == e.id && s.paid)).length = 1)) := by
  obtain ⟨category, group, ns, hfc, hfg, hpos, hE, hcases, hdb'⟩ :=
    addSharedExpense_ok_elim hok
  have heid : e.id = db.next_expense_id := by rw [hE]
  have hsplits : db'.splits = db.splits ++ ns := by rw [hdb']
  have hns_char : ∀ s ∈ ns, s.expense_id = db.next_expense_id ∧
      (s.paid = true ↔ s.user_id = user_id) := by
    intro s hs
    rcases hcases with ⟨_, _, hns⟩ | ⟨_, ⟨cs, _, hns⟩ | ⟨_, hns⟩⟩
    · rw [hns] at hs
      obtain ⟨m, _, rfl⟩ := List.mem_map.mp hs
      exact ⟨rfl, by simp⟩
    · rw [hns] at hs
      obtain ⟨p, _, rfl⟩ := List.mem_map.mp hs
      exact ⟨rfl, by simp⟩
    · rw [hns] at hs
      cases hs
  have hfilter : db'.splits.filter (fun s => s.expense_id == e.id && s.paid) =
      ns.filter (fun s => s.paid) := by
    rw [hsplits, List.filter_append]
    have hold : db.splits.filter (fun s => s.expense_id == e.id && s.paid) = [] := by
      rw [List.filter_eq_nil_iff]
      intro s hs
      have hlt := hwf.2.2.2.2.2 s hs
      simp only [Bool.and_eq_true, beq_iff_eq, not_and]
      intro hse
      exact absurd (heid ▸ hse) (Nat.ne_of_lt hlt)
    have hnsf : ns.filter (fun s => s.expense_id == e.id && s.paid) =
        ns.filter (fun s => s.paid) := by
      apply List.filter_congr
      intro s hs
      have h1 := (hns_char s hs).1
      simp [h1, heid]
    rw [hold, hnsf, List.nil_append]
  refine ⟨?_, ?_, ?_, ?_⟩
  · intro s hs hse hp
    rw [hsplits] at hs
    rcases List.mem_append.mp hs with hs | hs
    · have hlt := hwf.2.2.2.2.2 s hs
      exact absurd (heid ▸ hse) (Nat.ne_of_lt hlt)
    · exact (hns_char s hs).2.mp hp
  · rw [hfilter]
    rcases hcases with ⟨_, _, hns⟩ | ⟨_, ⟨cs, hcs, hns⟩ | ⟨_, hns⟩⟩
    · have hg : group ∈ db.groups := List.mem_of_find?_eq_some hfg
      have hcount : (ns.filter (fun s => s.paid)).length =
          (group.members.filter (fun x => x == user_id)).length := by
        rw [hns, List.filter_map, List.length_map]
        rfl
      rw [hcount, filter_beq_length (hndm group hg) user_id]
      split_ifs <;> simp
    · have hcount : (ns.filter (fun s => s.paid)).length =
          ((cs.map Prod.fst).filter (fun x => x == user_id)).length := by
        rw [hns, List.filter_map, List.length_map]
        conv_rhs => rw [List.filter_map, List.length_map]
        rfl
      rw [hcount, filter_beq_length (hndc cs hcs) user_id]
      split_ifs <;> simp
    · rw [hns]
      simp
  · intro hsp g hgf
    rcases hcases with ⟨_, _, hns⟩ | ⟨hspf, _⟩
    · have hgg : g = group := by
        rw [hfg] at hgf
        exact (Option.some.inj hgf).symm
      subst hgg
      have hg : g ∈ db.groups := List.mem_of_find?_eq_some hfg
      have hcount : (ns.filter (fun s => s.paid)).length =
          (g.members.filter (fun x => x == user_id)).length := by
        rw [hns, List.filter_map, List.length_map]
        rfl
      rw [hfilter, hcount, filter_beq_length (hndm g hg) user_id]
      by_cases hmem : user_id ∈ g.members <;> simp [hmem]
    · rw [hsp] at hspf
      exact absurd hspf (by simp)
  · intro cs hcs hsp
    rcases hcases with ⟨hspt, _, _⟩ | ⟨_, ⟨cs', hcs', hns⟩ | ⟨hnone, _⟩⟩
    · rw [hsp] at hspt
      exact absurd hspt (by simp)
    · have hcc : cs' = cs := Option.some.inj (hcs'.symm.trans hcs)
      subst hcc
      have hcount : (ns.filter (fun s => s.paid)).length =
          ((cs'.map Prod.fst).filter (fun x => x == user_id)).length := by
        rw [hns, List.filter_map, List.length_map]
        conv_rhs => rw [List.filter_map, List.length_map]
        rfl
      rw [hfilter, hcount, filter_beq_length (hndc cs' hcs) user_id]
      by_cases hmem : user_id ∈ cs'.map Prod.fst <;> simp [hmem]
    · rw [hnone] at hcs
      cases hcs

/-- Claim C4 counterexample: a custom-split shared expense whose mapping
does not contain the payer (payer 1, mapping {2: 100}) persists with a
single split row and zero rows flagged paid — not exactly one. -/
theorem addSharedExpense_zero_paid_counterexample :
    (addSharedExpense c4db 1 1 "Food" 100 "" false (some [(2, 100)])).2 =
      .ok ⟨1, 1, 1, 100, "", some 1, true⟩ ∧
    (addSharedExpense c4db 1 1 "Food" 100 "" false (some [(2, 100)])).1.splits =
      [⟨1, 2, 100, false⟩] ∧
    (((addSharedExpense c4db 1 1 "Food" 100 "" false (some [(2, 100)])).1.splits).filter
      (fun s => s.paid)).length = 0 := by
  refine ⟨?_, ?_, ?_⟩ <;> rfl

/-- Claim C4 amended witness: a custom-mode expense whose mapping holds
the payer — one paid split, belonging to the payer. -/
theorem addSharedExpense_paid_splits_witness :
    (wdb.WF ∧
      addSharedExpense wdb 1 1 "Food" 100 "" false (some [(1, 60), (2, 40)]) =
        (c4wdb', .ok ⟨1, 1, 1, 100, "", some 1, true⟩)) ∧
    ((∀ s ∈ c4wdb'.splits,
        s.expense_id = (⟨1, 1, 1, 100, "", some 1, true⟩ : Expense).id →
          s.paid = true → s.user_id = 1) ∧
      (c4wdb'.splits.filter (fun s =>
        s.expense_id == (⟨1, 1, 1, 100, "", some 1, true⟩ : Expense).id && s.paid)).length ≤ 1 ∧
      (false = true →
        ∀ g, wdb.groups.find? (fun g' => g'.id == 1) = some g →
          (1 ∈ g.members ↔
            (c4wdb'.splits.filter (fun s =>
              s.expense_id == (⟨1, 1, 1, 100, "", some 1, true⟩ : Expense).id && s.paid)).length = 1)) ∧
      (∀ cs, some [((1 : Nat), (60 : ℚ)), (2, 40)] = some cs → false = false →
        (1 ∈ cs.map Prod.fst ↔
          (c4wdb'.splits.filter (fun s =>
            s.expense_id == (⟨1, 1, 1, 100, "", some 1, true⟩ : Expense).id && s.paid)).length = 1))) :=
  ⟨⟨by decide, by rfl⟩,
   addSharedExpense_paid_splits wdb 1 1 "Food" 100 "" false (some [(1, 60), (2, 40)])
     c4wdb' ⟨1, 1, 1, 100, "", some 1, true⟩
     (by decide) (by decide) (by decide) (by rfl)⟩

/-- Claim C5 amended: with the category and group found, the operation
fails — the whole transaction rolled back, the state unchanged, so no
expense and no splits persist — whenever the amount is non-positive (the
positive-amount CHECK, in either mode), or the member set is empty in
equal-split mode (ZeroDivisionError).  An empty member set in custom
mode does NOT fail (see the counterexample). -/
theorem addSharedExpense_invalid_rejected (db : DB) (user_id group_id : Nat)
    (category_name : String) (amount : ℚ) (description : String)
    (split_equally : Bool) (custom_splits : Option (List (Nat × ℚ)))
    (category : Category) (group : Group)
    (hcat : db.categories.find? (fun c => c.name == category_name) = some category)
    (hgrp : db.groups.find? (fun g => g.id == group_id) = some group)
    (h : amount ≤ 0 ∨ (split_equally = true ∧ group.members = [])) :
    ∃ err, addSharedExpense db user_id group_id category_name amount description
      split_equally custom_splits = (db, .error err) := by
  by_cases hA : amount ≤ 0
  · refine ⟨.checkConstraint, ?_⟩
    simp only [addSharedExpense, hcat, hgrp, if_pos hA]
  · rcases h with hA' | ⟨hsp, hmem⟩
    · exact absurd hA' hA
    · subst hsp
      have halloc : allocSplits db.next_expense_id user_id amount group.members
          true custom_splits = .error .zeroDivision := by
        unfold allocSplits
        rw [if_pos rfl, if_pos (by rw [hmem]; rfl)]
      refine ⟨.zeroDivision, ?_⟩
      simp only [addSharedExpense, hcat, hgrp, if_neg hA, halloc]

/-- Claim C5 counterexample: the member set is empty, the amount positive,
yet the custom-mode call succeeds and persists the mapping's split — no
InvalidAllocation failure at all. -/
theorem addSharedExpense_empty_members_custom_succeeds :
    c5db.groups = [⟨1, "solo", []⟩] ∧
    (addSharedExpense c5db 1 1 "Food" 50 "" false (some [(1, 50)])).2 =
      .ok ⟨1, 1, 1, 50, "", some 1, true⟩ ∧
    (addSharedExpense c5db 1 1 "Food" 50 "" false (some [(1, 50)])).1.splits =
      [⟨1, 1, 50, true⟩] :=
  ⟨rfl, rfl, rfl⟩

/-- Claim C5 amended witness: a zero amount is rejected with the state
left untouched. -/
theorem addSharedExpense_invalid_rejected_witness :
    ((0 : ℚ) ≤ 0 ∨ (true = true ∧ wGroup.members = [])) ∧
    ∃ err, addSharedExpense wdb 1 1 "Food" 0 "" true none = (wdb, .error err) :=
  ⟨Or.inl (by norm_num),
   addSharedExpense_invalid_rejected wdb 1 1 "Food" 0 "" true none wCat wGroup
     (by decide) (by decide) (Or.inl (by norm_num))⟩

/-- Every failing add_shared_expense run leaves the store exactly as it
was: the rollback of get_session discards the expense and any splits. -/
theorem addSharedExpense_error_elim {db : DB} {user_id group_id : Nat}
    {category_name : String} {amount : ℚ} {description : String}
    {split_equally : Bool} {custom_splits : Option (List (Nat × ℚ))}
    {db' : DB} {err : AddError}
    (hres : addSharedExpense db user_id group_id category_name amount description
      split_equally custom_splits = (db', .error err)) : db' = db := by
  unfold addSharedExpense at hres
  split at hres
  · exact (Prod.mk.inj hres).1.symm
  split at hres
  · exact (Prod.mk.inj hres).1.symm
  split at hres
  · exact (Prod.mk.inj hres).1.symm
  split at hres
  · exact (Prod.mk.inj hres).1.symm
  split at hres
  · exact (Prod.mk.inj hres).1.symm
  · exact absurd (Prod.mk.inj hres).2 (by simp)

/-- Claim C6 amended: the unit of work is atomic — on any failure the
state is unchanged (no expense, no splits persisted), and on success the
expense and all allocator-computed splits are appended together in one
commit, every new split referencing the new expense, all other tables
untouched.  Splits never persist without their expense; an expense CAN,
however, persist with an empty split set (custom mode, no mapping — see
the counterexample). -/
theorem addSharedExpense_atomic (db : DB) (user_id group_id : Nat)
    (category_name : String) (amount : ℚ) (description : String)
    (split_equally : Bool) (custom_splits : Option (List (Nat × ℚ))) :
    (∀ err, (addSharedExpense db user_id group_id category_name amount description
        split_equally custom_splits).2 = .error err →
      (addSharedExpense db user_id group_id category_name amount description
        split_equally custom_splits).1 = db) ∧
    (∀ db' e, addSharedExpense db user_id group_id category_name amount description
        split_equally custom_splits = (db', .ok e) →
      db'.expenses = db.expenses ++ [e] ∧
      (∃ ns, db'.splits = db.splits ++ ns ∧ ∀ s ∈ ns, s.expense_id = e.id) ∧
      db'.users = db.users ∧ db'.groups = db.groups ∧
      db'.categories = db.categories) := by
  constructor
  · intro err herr
    have hres : addSharedExpense db user_id group_id category_name amount description
        split_equally custom_splits =
        ((addSharedExpense db user_id group_id category_name amount description
          split_equally custom_splits).1, .error err) := by
      rw [← herr]
    exact addSharedExpense_error_elim hres
  · intro db' e hok
    obtain ⟨category, group, ns, hfc, hfg, hpos, hE, hcases, hdb'⟩ :=
      addSharedExpense_ok_elim hok
    have heid : e.id = db.next_expense_id := by rw [hE]
    subst hdb'
    refine ⟨rfl, ⟨ns, rfl, ?_⟩, rfl, rfl, rfl⟩
    intro s hs
    rw [heid]
    rcases hcases with ⟨_, _, hns⟩ | ⟨_, ⟨cs, _, hns⟩ | ⟨_, hns⟩⟩
    · rw [hns] at hs
      obtain ⟨m, _, rfl⟩ := List.mem_map.mp hs
      rfl
    · rw [hns] at hs
      obtain ⟨p, _, rfl⟩ := List.mem_map.mp hs
      rfl
    · rw [hns] at hs
      cases hs

/-- Claim C6 counterexample: custom mode with no mapping supplied — the
only way the CLI ever invokes custom mode — succeeds and persists the
expense with zero split rows: an expense without its corresponding
splits, with no failure and hence no rollback. -/
theorem addSharedExpense_expense_without_splits :
    (addSharedExpense c6db 1 1 "Food" 100 "" false none).2 =
      .ok ⟨1, 1, 1, 100, "", some 1, true⟩ ∧
    (addSharedExpense c6db 1 1 "Food" 100 "" false none).1.expenses =
      [⟨1, 1, 1, 100, "", some 1, true⟩] ∧
    (addSharedExpense c6db 1 1 "Food" 100 "" false none).1.splits = [] :=
  ⟨rfl, rfl, rfl⟩

/-- Claim C6 amended witness: a failing run (zero amount) leaves the store
unchanged; a succeeding run appends the expense and both its splits in
one step with the other tables untouched. -/
theorem addSharedExpense_atomic_witness :
    ((addSharedExpense wdb 1 1 "Food" 0 "" true none).1 = wdb) ∧
    (c6wdb'.expenses = wdb.expenses ++ [⟨1, 1, 1, 80, "", some 1, true⟩] ∧
      (∃ ns, c6wdb'.splits = wdb.splits ++ ns ∧
        ∀ s ∈ ns, s.expense_id = (⟨1, 1, 1, 80, "", some 1, true⟩ : Expense).id) ∧
      c6wdb'.users = wdb.users ∧ c6wdb'.groups = wdb.groups ∧
      c6wdb'.categories = wdb.categories) :=
  ⟨(addSharedExpense_atomic wdb 1 1 "Food" 0 "" true none).1 .checkConstraint rfl,
   (addSharedExpense_atomic wdb 1 1 "Food" 80 "" false (some [(1, 40), (2, 40)])).2
     c6wdb' ⟨1, 1, 1, 80, "", some 1, true⟩ rfl⟩

/- ==================== Balance Engine: spec-side views of the ledger -/

/- ==================== Balance Engine: generic list lemmas -/

/-- find? on a key-unique list locates a member by its key. -/
theorem find?_key_of_nodup {α : Type} {l : List α} {key : α → Nat}
    (hnd : (l.map key).Nodup) {x : α} (hx : x ∈ l) :
    l.find? (fun y => key y == key x) = some x := by
  induction l with
  | nil => cases hx
  | cons a t ih =>
    rw [List.map_cons, List.nodup_cons] at hnd
    rcases List.mem_cons.mp hx with rfl | hx'
    · exact List.find?_cons_of_pos _ (by simp)
    · have hne : ¬((fun y => key y == key x) a = true) := by
        simp only [beq_iff_eq]
        exact fun h => hnd.1 (h ▸ List.mem_map_of_mem key hx')
      exact (List.find?_cons_of_neg (p := fun y => key y == key x) _ hne).trans
        (ih hnd.2 hx')

/-- filter on a key-unique list keeps exactly the keyed member. -/
theorem filter_key_singleton {α : Type} {l : List α} {key : α → Nat}
    (hnd : (l.map key).Nodup) {x : α} (hx : x ∈ l) :
    l.filter (fun y => key y == key x) = [x] := by
  induction l with
  | nil => cases hx
  | cons a t ih =>
    rw [List.map_cons, List.nodup_cons] at hnd
    rcases List.mem_cons.mp hx with rfl | hx'
    · have ht : t.filter (fun y => key y == key x) = [] := by
        rw [List.filter_eq_nil_iff]
        intro y hy
        simp only [beq_iff_eq]
        exact fun h => hnd.1 (h ▸ List.mem_map_of_mem key hy)
      simp [List.filter_cons, ht]
    · have hne : (key a == key x) = false := by
        simp only [beq_eq_false_iff_ne, ne_eq]
        exact fun h => hnd.1 (h ▸ List.mem_map_of_mem key hx')
      simp [List.filter_cons, hne, ih hnd.2 hx']

/-- filter with a key test and a side condition on a key-unique list. -/
theorem filter_key_if {α : Type} {l : List α} {key : α → Nat}
    (hnd : (l.map key).Nodup) {x : α} (hx : x ∈ l) (P : α → Bool) :
    l.filter (fun y => key y == key x && P y) = if P x then [x] else [] := by
  have h1 : l.filter (fun y => key y == key x && P y) =
      (l.filter (fun y => key y == key x)).filter P := by
    rw [List.filter_filter]
    apply List.filter_congr
    intro y _
    exact Bool.and_comm _ _
  rw [h1, filter_key_singleton hnd hx]
  cases hP : P x <;> simp [List.filter_cons, hP]

/-- Summing a constant zero. -/
theorem sum_map_zero_q {β : Type} (E : List β) : (E.map (fun _ => (0 : ℚ))).sum = 0 := by
  induction E <;> simp [*]

/-- Sums distribute over pointwise addition. -/
theorem sum_map_add_q {β : Type} (E : List β) (g h : β → ℚ) :
    (E.map (fun e => g e + h e)).sum = (E.map g).sum + (E.map h).sum := by
  induction E with
  | nil => simp
  | cons b E ih =>
    simp only [List.map_cons, List.sum_cons, ih]
    ring

/-- Summing over a flatMap is the double sum. -/
theorem sum_map_flatMap_q {α β : Type} (l : List α) (f : α → List β) (g : β → ℚ) :
    ((l.flatMap f).map g).sum = (l.map (fun a => ((f a).map g).sum)).sum := by
  induction l with
  | nil => rfl
  | cons a l ih =>
    rw [List.flatMap_cons, List.map_append, List.sum_append, ih, List.map_cons,
      List.sum_cons]

/-- Summing over a filter is summing the guarded terms. -/
theorem sum_map_filter_q {α : Type} (l : List α) (p : α → Bool) (f : α → ℚ) :
    ((l.filter p).map f).sum = (l.map (fun x => if p x then f x else 0)).sum := by
  induction l with
  | nil => rfl
  | cons a l ih =>
    cases hp : p a <;> simp [List.filter_cons, hp, ih]

/-- Terms vanishing outside the filter can be dropped. -/
theorem sum_eq_sum_filter_q {α : Type} (l : List α) (p : α → Bool) (f : α → ℚ)
    (h : ∀ x ∈ l, p x = false → f x = 0) :
    (l.map f).sum = ((l.filter p).map f).sum := by
  induction l with
  | nil => rfl
  | cons a l ih =>
    have ih' := ih (fun x hx => h x (List.mem_cons_of_mem a hx))
    cases hp : p a
    · simp [List.filter_cons, hp, ih', h a (List.mem_cons_self a l) hp]
    · simp [List.filter_cons, hp, ih']

/-- A sum of key-guarded constants over a key-unique list collapses to the
single matching term. -/
theorem sum_if_unique_q {β : Type} (E : List β) (idOf : β → Nat) (k : Nat) (c : ℚ)
    (hnd : (E.map idOf).Nodup) (hk : k ∈ E.map idOf) :
    (E.map (fun e => if k == idOf e then c else 0)).sum = c := by
  induction E with
  | nil => cases hk
  | cons b E ih =>
    rw [List.map_cons, List.nodup_cons] at hnd
    rcases List.mem_cons.mp hk with rfl | hk'
    · have hz : (E.map (fun e => if idOf b == idOf e then c else 0)).sum = 0 := by
        have : E.map (fun e => if idOf b == idOf e then c else 0) =
            E.map (fun _ => (0 : ℚ)) := by
          apply List.map_congr_left
          intro e he
          have : (idOf b == idOf e) = false := by
            simp only [beq_eq_false_iff_ne, ne_eq]
            exact fun h => hnd.1 (h ▸ List.mem_map_of_mem idOf he)
          rw [this]
          rfl
        rw [this, sum_map_zero_q]
      rw [List.map_cons, List.sum_cons, hz]
      simp
    · have hb : (k == idOf b) = false := by
        simp only [beq_eq_false_iff_ne, ne_eq]
        intro h
        exact hnd.1 (h ▸ hk')
      rw [List.map_cons, List.sum_cons, ih hnd.2 hk', hb]
      simp

/-- Partition of a sum by a key drawn from a key-unique index list. -/
theorem sum_partition_q {α β : Type} (L : List α) (E : List β) (key : α → Nat)
    (idOf : β → Nat) (f : α → ℚ) (hnd : (E.map idOf).Nodup)
    (hmem : ∀ a ∈ L, key a ∈ E.map idOf) :
    (L.map f).sum =
      (E.map (fun e => ((L.filter (fun a => key a == idOf e)).map f).sum)).sum := by
  induction L with
  | nil =>
    have : E.map (fun e =>
        ((([] : List α).filter (fun a => key a == idOf e)).map f).sum) =
        E.map (fun _ => (0 : ℚ)) := by
      apply List.map_congr_left
      intro e _
      rfl
    rw [this, sum_map_zero_q]
    rfl
  | cons a L ih =>
    have hka := hmem a (List.mem_cons_self a L)
    have hsplit : E.map (fun e =>
        (((a :: L).filter (fun x => key x == idOf e)).map f).sum) =
        E.map (fun e => (if key a == idOf e then f a else 0) +
          ((L.filter (fun x => key x == idOf e)).map f).sum) := by
      apply List.map_congr_left
      intro e _
      cases hc : (key a == idOf e) <;> simp [List.filter_cons, hc]
    rw [List.map_cons, List.sum_cons,
      ih (fun x hx => hmem x (List.mem_cons_of_mem a hx)), hsplit, sum_map_add_q,
      sum_if_unique_q E idOf (key a) (f a) hnd hka]

/-- Summing a paid-guarded constant counts the paid rows. -/
theorem sum_if_count_q (l : List ExpenseSplit) (c : ℚ) :
    (l.map (fun s => if s.paid then c else 0)).sum =
      ((l.filter (fun s => s.paid)).length : ℚ) * c := by
  induction l with
  | nil => simp
  | cons s l ih =>
    cases hp : s.paid <;> simp [List.filter_cons, hp, ih]
    ring

/-- Under unique keys and resolving foreign keys, a split's join rows are
the closed-form joinedRow. -/
theorem joinedRow_spec (db : DB) (group_id : Nat) (s : ExpenseSplit)
    (hndE : (db.expenses.map Expense.id).Nodup)
    (hndU : (db.users.map User.id).Nodup)
    (hE : ∃ e ∈ db.expenses, e.id = s.expense_id)
    (hU : ∃ u ∈ db.users, u.id = s.user_id) :
    ∃ e u, splitExpense db s = some e ∧
      db.users.find? (fun v => v.id == s.user_id) = some u ∧
      e.id = s.expense_id ∧ u.id = s.user_id ∧ e ∈ db.expenses ∧ u ∈ db.users ∧
      joinedRow db group_id s =
        (if e.group_id == some group_id then [(s, e, u)] else []) := by
  obtain ⟨e, heM, heId⟩ := hE
  obtain ⟨u, huM, huId⟩ := hU
  have hfe : splitExpense db s = some e := by
    unfold splitExpense
    rw [← heId]
    exact find?_key_of_nodup hndE heM
  have hfu : db.users.find? (fun v => v.id == s.user_id) = some u := by
    rw [← huId]
    exact find?_key_of_nodup hndU huM
  refine ⟨e, u, hfe, hfu, heId, huId, heM, huM, ?_⟩
  unfold joinedRow
  rw [show db.expenses.find? (fun e' => e'.id == s.expense_id) = some e from hfe, hfu]

/-- Under the schema constraints the join enumerates, split by split, its
closed-form rows. -/
theorem groupJoin_eq_flatMap (db : DB) (group_id : Nat) (hwf : db.WF) :
    groupJoin db group_id = db.splits.flatMap (joinedRow db group_id) := by
  unfold groupJoin
  have h : ∀ ss : List ExpenseSplit, (∀ s ∈ ss, s ∈ db.splits) →
      (ss.flatMap (fun s =>
        (db.expenses.filter
          (fun e => e.id == s.expense_id && e.group_id == some group_id)).flatMap
          (fun e => (db.users.filter (fun u => u.id == s.user_id)).map
            (fun u => (s, e, u))))) =
      ss.flatMap (joinedRow db group_id) := by
    intro ss hss
    induction ss with
    | nil => rfl
    | cons a t ih =>
      rw [List.flatMap_cons, List.flatMap_cons,
        ih (fun s hs => hss s (List.mem_cons_of_mem a hs))]
      congr 1
      obtain ⟨e, u, hfe, hfu, heId, huId, heM, huM, hjr⟩ :=
        joinedRow_spec db group_id a hwf.1 hwf.2.1
          (hwf.2.2.1 a (hss a (List.mem_cons_self a t)))
          (hwf.2.2.2.1 a (hss a (List.mem_cons_self a t)))
      rw [hjr]
      have hef : db.expenses.filter
          (fun e' => e'.id == a.expense_id && e'.group_id == some group_id) =
          if (e.group_id == some group_id) then [e] else [] := by
        rw [← heId]
        exact filter_key_if hwf.1 heM (fun e' => e'.group_id == some group_id)
      have huf : db.users.filter (fun u' => u'.id == a.user_id) = [u] := by
        rw [← huId]
        exact filter_key_singleton hwf.2.1 huM
      rw [hef]
      cases hg : (e.group_id == some group_id) <;> simp [hg, huf]
  exact h db.splits (fun _ hs => hs)

/- ==================== Balance Engine: accumulator sum lemmas -/

/-- One insertRow step adds the row's paid contribution to the table's
total_paid sum, whether it updates an entry or appends a fresh one. -/
theorem sum_paid_insertRow (l : List Balance) (t : ExpenseSplit × Expense × User) :
    ((insertRow l t).map Balance.total_paid).sum =
      (l.map Balance.total_paid).sum + (if t.1.paid then t.2.1.amount else 0) := by
  obtain ⟨s, e, u⟩ := t
  induction l with
  | nil => simp [insertRow, bumpBalance, initBalance]
  | cons b rest ih =>
    by_cases hb : b.user_id = u.id
    · simp only [insertRow, if_pos hb, List.map_cons, List.sum_cons, bumpBalance]
      ring
    · simp only [insertRow, if_neg hb, List.map_cons, List.sum_cons, ih]
      ring

/-- One insertRow step adds the split amount to the total_owed sum. -/
theorem sum_owed_insertRow (l : List Balance) (t : ExpenseSplit × Expense × User) :
    ((insertRow l t).map Balance.total_owed).sum =
      (l.map Balance.total_owed).sum + t.1.amount := by
  obtain ⟨s, e, u⟩ := t
  induction l with
  | nil => simp [insertRow, bumpBalance, initBalance]
  | cons b rest ih =>
    by_cases hb : b.user_id = u.id
    · simp only [insertRow, if_pos hb, List.map_cons, List.sum_cons, bumpBalance]
      ring
    · simp only [insertRow, if_neg hb, List.map_cons, List.sum_cons, ih]
      ring

/-- Folding the whole join accumulates every paid contribution. -/
theorem sum_paid_foldl (ts : List (ExpenseSplit × Expense × User)) (l : List Balance) :
    ((ts.foldl insertRow l).map Balance.total_paid).sum =
      (l.map Balance.total_paid).sum +
        (ts.map (fun t => if t.1.paid then t.2.1.amount else 0)).sum := by
  induction ts generalizing l with
  | nil => simp
  | cons t ts ih =>
    rw [List.foldl_cons, ih, sum_paid_insertRow, List.map_cons, List.sum_cons]
    ring

/-- Folding the whole join accumulates every split amount. -/
theorem sum_owed_foldl (ts : List (ExpenseSplit × Expense × User)) (l : List Balance) :
    ((ts.foldl insertRow l).map Balance.total_owed).sum =
      (l.map Balance.total_owed).sum + (ts.map (fun t => t.1.amount)).sum := by
  induction ts generalizing l with
  | nil => simp
  | cons t ts ih =>
    rw [List.foldl_cons, ih, sum_owed_insertRow, List.map_cons, List.sum_cons]
    ring

/-- Sum of differences over balance rows. -/
theorem sum_map_sub_balances (l : List Balance) :
    (l.map (fun b => b.total_paid - b.total_owed)).sum =
      (l.map Balance.total_paid).sum - (l.map Balance.total_owed).sum := by
  induction l with
  | nil => simp
  | cons b rest ih =>
    simp only [List.map_cons, List.sum_cons, ih]
    ring

/-- The net-balance total of get_group_balances is the join's paid total
minus its owed total. -/
theorem getGroupBalances_net_sum (db : DB) (group_id : Nat) :
    ((getGroupBalances db group_id).map Balance.net_balance).sum =
      ((groupJoin db group_id).map (fun t => if t.1.paid then t.2.1.amount else 0)).sum -
      ((groupJoin db group_id).map (fun t => t.1.amount)).sum := by
  unfold getGroupBalances
  rw [List.map_map]
  have h1 : (Balance.net_balance ∘ fun b : Balance =>
      { b with net_balance := b.total_paid - b.total_owed }) =
      fun b : Balance => b.total_paid - b.total_owed := rfl
  rw [h1, sum_map_sub_balances, sum_paid_foldl, sum_owed_foldl]
  simp

/-- splitInGroup read through the resolved expense. -/
theorem splitInGroup_eq (db : DB) (group_id : Nat) (s : ExpenseSplit) (e : Expense)
    (hfe : splitExpense db s = some e) :
    splitInGroup db group_id s = (e.group_id == some group_id) := by
  unfold splitInGroup
  rw [hfe]

/-- The join rows of one split sum to its paid contribution. -/
theorem joinedRow_paid_sum (db : DB) (group_id : Nat) (s : ExpenseSplit)
    (hndE : (db.expenses.map Expense.id).Nodup)
    (hndU : (db.users.map User.id).Nodup)
    (hE : ∃ e ∈ db.expenses, e.id = s.expense_id)
    (hU : ∃ u ∈ db.users, u.id = s.user_id) :
    ((joinedRow db group_id s).map (fun t => if t.1.paid then t.2.1.amount else 0)).sum =
      paidContribution db group_id s := by
  obtain ⟨e, u, hfe, hfu, heId, huId, heM, huM, hjr⟩ :=
    joinedRow_spec db group_id s hndE hndU hE hU
  rw [hjr]
  unfold paidContribution
  rw [hfe]
  cases hg : (e.group_id == some group_id) <;> simp [hg]

/-- The join rows of one split sum to its owed contribution. -/
theorem joinedRow_owed_sum (db : DB) (group_id : Nat) (s : ExpenseSplit)
    (hndE : (db.expenses.map Expense.id).Nodup)
    (hndU : (db.users.map User.id).Nodup)
    (hE : ∃ e ∈ db.expenses, e.id = s.expense_id)
    (hU : ∃ u ∈ db.users, u.id = s.user_id) :
    ((joinedRow db group_id s).map (fun t => t.1.amount)).sum =
      owedContribution db group_id s := by
  obtain ⟨e, u, hfe, hfu, heId, huId, heM, huM, hjr⟩ :=
    joinedRow_spec db group_id s hndE hndU hE hU
  rw [hjr]
  unfold owedContribution
  rw [hfe]
  cases hg : (e.group_id == some group_id) <;> simp [hg]

/-- Off-group splits contribute nothing to the paid total. -/
theorem paidContribution_eq_zero (db : DB) (group_id : Nat) (s : ExpenseSplit)
    (h : splitInGroup db group_id s = false) :
    paidContribution db group_id s = 0 := by
  unfold paidContribution
  unfold splitInGroup at h
  rcases hfe : splitExpense db s with _ | e
  · rfl
  · rw [hfe] at h
    have h' : (e.group_id == some group_id) = false := h
    simp [h']

/-- Off-group splits contribute nothing to the owed total. -/
theorem owedContribution_eq_zero (db : DB) (group_id : Nat) (s : ExpenseSplit)
    (h : splitInGroup db group_id s = false) :
    owedContribution db group_id s = 0 := by
  unfold owedContribution
  unfold splitInGroup at h
  rcases hfe : splitExpense db s with _ | e
  · rfl
  · rw [hfe] at h
    have h' : (e.group_id == some group_id) = false := h
    simp [h']

/-- Claim C1 amended: in a well-formed ledger, for every group all of
whose shared expenses reconcile — each expense's splits sum exactly to its
amount and each has exactly one paid split — the net balances of
get_group_balances sum to exactly zero.  (Custom splits are never
validated, so an unreconciled custom split breaks the invariant: see the
counterexample, where the sum is 20.) -/
theorem getGroupBalances_sum_eq_zero (db : DB) (group_id : Nat) (hwf : db.WF)
    (hrec : ∀ e ∈ db.expenses, e.group_id = some group_id →
      ((db.splits.filter (fun s => s.expense_id == e.id)).map ExpenseSplit.amount).sum =
        e.amount)
    (hpaid : ∀ e ∈ db.expenses, e.group_id = some group_id →
      ((db.splits.filter (fun s => s.expense_id == e.id)).filter
        (fun s => s.paid)).length = 1) :
    ((getGroupBalances db group_id).map Balance.net_balance).sum = 0 := by
  rw [getGroupBalances_net_sum, groupJoin_eq_flatMap db group_id hwf,
    sum_map_flatMap_q, sum_map_flatMap_q]
  have h1 : db.splits.map (fun s => ((joinedRow db group_id s).map
      (fun t => if t.1.paid then t.2.1.amount else 0)).sum) =
      db.splits.map (paidContribution db group_id) :=
    List.map_congr_left (fun s hs => joinedRow_paid_sum db group_id s hwf.1 hwf.2.1
      (hwf.2.2.1 s hs) (hwf.2.2.2.1 s hs))
  have h2 : db.splits.map (fun s => ((joinedRow db group_id s).map
      (fun t => t.1.amount)).sum) =
      db.splits.map (owedContribution db group_id) :=
    List.map_congr_left (fun s hs => joinedRow_owed_sum db group_id s hwf.1 hwf.2.1
      (hwf.2.2.1 s hs) (hwf.2.2.2.1 s hs))
  rw [h1, h2,
    sum_eq_sum_filter_q db.splits (splitInGroup db group_id) _
      (fun s _ h => paidContribution_eq_zero db group_id s h),
    sum_eq_sum_filter_q db.splits (splitInGroup db group_id) _
      (fun s _ h => owedContribution_eq_zero db group_id s h)]
  have hndE' : ((db.expenses.filter (fun e => e.group_id == some group_id)).map
      Expense.id).Nodup :=
    List.Nodup.sublist (List.Sublist.map Expense.id (List.filter_sublist db.expenses))
      hwf.1
  have hmemP : ∀ s ∈ db.splits.filter (splitInGroup db group_id),
      s.expense_id ∈ (db.expenses.filter (fun e => e.group_id == some group_id)).map
        Expense.id := by
    intro s hs
    rw [List.mem_filter] at hs
    obtain ⟨e, u, hfe, hfu, heId, huId, heM, huM, hjr⟩ :=
      joinedRow_spec db group_id s hwf.1 hwf.2.1 (hwf.2.2.1 s hs.1)
        (hwf.2.2.2.1 s hs.1)
    have hg : (e.group_id == some group_id) = true := by
      have h := hs.2
      rw [splitInGroup_eq db group_id s e hfe] at h
      exact h
    rw [← heId]
    exact List.mem_map_of_mem Expense.id (List.mem_filter.mpr ⟨heM, hg⟩)
  rw [sum_partition_q (db.splits.filter (splitInGroup db group_id))
      (db.expenses.filter (fun e => e.group_id == some group_id))
      ExpenseSplit.expense_id Expense.id _ hndE' hmemP,
    sum_partition_q (db.splits.filter (splitInGroup db group_id))
      (db.expenses.filter (fun e => e.group_id == some group_id))
      ExpenseSplit.expense_id Expense.id _ hndE' hmemP]
  have hterm : ∀ e ∈ db.expenses.filter (fun e => e.group_id == some group_id),
      (((db.splits.filter (splitInGroup db group_id)).filter
        (fun s => s.expense_id == e.id)).map (paidContribution db group_id)).sum =
      (((db.splits.filter (splitInGroup db group_id)).filter
        (fun s => s.expense_id == e.id)).map (owedContribution db group_id)).sum := by
    intro e heE
    rw [List.mem_filter] at heE
    obtain ⟨heM, hgE⟩ := heE
    have hLf : (db.splits.filter (splitInGroup db group_id)).filter
        (fun s => s.expense_id == e.id) =
        db.splits.filter (fun s => s.expense_id == e.id) := by
      rw [List.filter_filter]
      apply List.filter_congr
      intro s hsM
      cases hse : (s.expense_id == e.id)
      · simp
      · have hseq : e.id = s.expense_id := (beq_iff_eq.mp hse).symm
        have hfe : splitExpense db s = some e := by
          unfold splitExpense
          rw [← hseq]
          exact find?_key_of_nodup hwf.1 heM
        have hin : splitInGroup db group_id s = true := by
          rw [splitInGroup_eq db group_id s e hfe]
          exact hgE
        simp [hin]
    have hfe_of : ∀ s ∈ db.splits.filter (fun s => s.expense_id == e.id),
        splitExpense db s = some e := by
      intro s hsF
      rw [List.mem_filter] at hsF
      have hseq : e.id = s.expense_id := (beq_iff_eq.mp hsF.2).symm
      unfold splitExpense
      rw [← hseq]
      exact find?_key_of_nodup hwf.1 heM
    have hmapP : (db.splits.filter (fun s => s.expense_id == e.id)).map
        (paidContribution db group_id) =
        (db.splits.filter (fun s => s.expense_id == e.id)).map
          (fun s => if s.paid then e.amount else 0) := by
      apply List.map_congr_left
      intro s hsF
      unfold paidContribution
      simp [hfe_of s hsF, hgE]
    have hmapO : (db.splits.filter (fun s => s.expense_id == e.id)).map
        (owedContribution db group_id) =
        (db.splits.filter (fun s => s.expense_id == e.id)).map
          ExpenseSplit.amount := by
      apply List.map_congr_left
      intro s hsF
      unfold owedContribution
      simp [hfe_of s hsF, hgE]
    rw [hLf, hmapP, hmapO, sum_if_count_q,
      hpaid e heM (by exact beq_iff_eq.mp hgE),
      hrec e heM (by exact beq_iff_eq.mp hgE)]
    simp
  have hfinal : (db.expenses.filter (fun e => e.group_id == some group_id)).map
      (fun e => (((db.splits.filter (splitInGroup db group_id)).filter
        (fun s => s.expense_id == e.id)).map (paidContribution db group_id)).sum) =
      (db.expenses.filter (fun e => e.group_id == some group_id)).map
      (fun e => (((db.splits.filter (splitInGroup db group_id)).filter
        (fun s => s.expense_id == e.id)).map (owedContribution db group_id)).sum) :=
    List.map_congr_left (fun e he => hterm e he)
  rw [hfinal, sub_self]

/-- Claim C1 counterexample: a group with a shared expense whose custom
split does not reconcile (amount 100, splits summing to 80 — the code
never validates this) has net balances summing to 20, not zero. -/
theorem getGroupBalances_nonzero_sum_counterexample :
    (addSharedExpense c1db 1 1 "Food" 100 "" false (some [(1, 80)])).1 = c1db' ∧
    c1db'.expenses ≠ [] ∧
    ((getGroupBalances c1db' 1).map Balance.net_balance).sum = 20 ∧
    (20 : ℚ) ≠ 0 := by
  refine ⟨rfl, by decide, ?_, by norm_num⟩
  simp +decide [getGroupBalances, groupJoin, insertRow, bumpBalance, initBalance, c1db']
  norm_num

/-- Claim C1 amended witness: the reconciling two-split store has net
balances summing to zero. -/
theorem getGroupBalances_sum_eq_zero_witness :
    c4wdb'.WF ∧ ((getGroupBalances c4wdb' 1).map Balance.net_balance).sum = 0 :=
  ⟨by decide,
   getGroupBalances_sum_eq_zero c4wdb' 1 (by decide)
     (by
       intro e he hg
       simp only [c4wdb', List.mem_singleton] at he
       subst he
       simp +decide [c4wdb']
       norm_num)
     (by decide)⟩

/- ==================== Balance Engine: per-user accumulator invariant -/

/-- Inserting a row keyed on a fresh user appends a fresh entry. -/
theorem insertRow_not_mem {l : List Balance} {t : ExpenseSplit × Expense × User}
    (h : tripleUid t ∉ buids l) :
    insertRow l t = l ++ [bumpBalance t.1 t.2.1 (initBalance t.2.2)] := by
  obtain ⟨s, e, u⟩ := t
  induction l with
  | nil => rfl
  | cons b rest ih =>
    simp only [buids, List.map_cons, List.mem_cons, not_or, tripleUid] at h
    have hbu : ¬(b.user_id = u.id) := fun hb => h.1 hb.symm
    simp only [insertRow, if_neg hbu, List.cons_append]
    congr 1
    exact ih h.2

/-- Inserting a row keyed on a present user updates exactly that entry. -/
theorem insertRow_mem {l : List Balance} {t : ExpenseSplit × Expense × User}
    (hnd : (buids l).Nodup) (h : tripleUid t ∈ buids l) :
    insertRow l t =
      l.map (fun b => if b.user_id = tripleUid t then bumpBalance t.1 t.2.1 b else b) := by
  obtain ⟨s, e, u⟩ := t
  have ht : tripleUid (s, e, u) = u.id := rfl
  rw [ht] at h ⊢
  induction l with
  | nil => simp [buids] at h
  | cons b rest ih =>
    simp only [buids, List.map_cons, List.nodup_cons] at hnd
    by_cases hb : b.user_id = u.id
    · have hrest : rest.map (fun b' =>
          if b'.user_id = u.id then bumpBalance s e b' else b') = rest := by
        have hpt : ∀ b' ∈ rest,
            (if b'.user_id = u.id then bumpBalance s e b' else b') = b' := by
          intro b' hb'
          rw [if_neg]
          intro hb'u
          apply hnd.1
          rw [hb, ← hb'u]
          exact List.mem_map_of_mem Balance.user_id hb'
        rw [List.map_congr_left hpt, List.map_id']
      simp only [insertRow, if_pos hb, List.map_cons, hrest]
    · simp only [insertRow, if_neg hb, List.map_cons]
      congr 1
      apply ih hnd.2
      rcases List.mem_cons.mp
          (show u.id ∈ b.user_id :: rest.map Balance.user_id from h) with h1 | h2
      · exact absurd h1.symm hb
      · exact h2

/-- Updating in place keeps the id sequence. -/
theorem buids_insertRow_mem {l : List Balance} {t : ExpenseSplit × Expense × User}
    (hnd : (buids l).Nodup) (h : tripleUid t ∈ buids l) :
    buids (insertRow l t) = buids l := by
  rw [insertRow_mem hnd h]
  unfold buids
  rw [List.map_map]
  apply List.map_congr_left
  intro b _
  by_cases hb : b.user_id = tripleUid t <;> simp [hb, bumpBalance]

/-- Appending a fresh entry appends its id. -/
theorem buids_insertRow_not_mem {l : List Balance} {t : ExpenseSplit × Expense × User}
    (h : tripleUid t ∉ buids l) :
    buids (insertRow l t) = buids l ++ [tripleUid t] := by
  rw [insertRow_not_mem h]
  unfold buids
  rw [List.map_append]
  rfl

/-- Invariant of the accumulation loop: starting from a table whose rows
carry the running per-user sums P and O (zero for absent users), folding
a batch of join rows yields a duplicate-free table whose ids are exactly
the ids seen, each row carrying its user's accumulated paid and owed
sums. -/
theorem foldl_insertRow_spec (ts : List (ExpenseSplit × Expense × User)) :
    ∀ (acc : List Balance) (P O : Nat → ℚ),
      (buids acc).Nodup →
      (∀ b ∈ acc, b.total_paid = P b.user_id ∧ b.total_owed = O b.user_id) →
      (∀ uid, uid ∉ buids acc → P uid = 0 ∧ O uid = 0) →
      (buids (ts.foldl insertRow acc)).Nodup ∧
      (∀ uid, uid ∈ buids (ts.foldl insertRow acc) ↔
        uid ∈ buids acc ∨ uid ∈ ts.map tripleUid) ∧
      (∀ b ∈ ts.foldl insertRow acc,
        b.total_paid = P b.user_id + pSum ts b.user_id ∧
        b.total_owed = O b.user_id + oSum ts b.user_id) := by
  induction ts with
  | nil =>
    intro acc P O hnd hsum _
    refine ⟨hnd, fun uid => by simp, fun b hb => ?_⟩
    have h := hsum b hb
    simp [pSum, oSum, h.1, h.2]
  | cons t ts ih =>
    intro acc P O hnd hsum hfresh
    rw [List.foldl_cons]
    have hstep :
        (buids (insertRow acc t)).Nodup ∧
        (∀ b ∈ insertRow acc t,
          b.total_paid = P b.user_id +
            (if tripleUid t = b.user_id then pContrib t else 0) ∧
          b.total_owed = O b.user_id +
            (if tripleUid t = b.user_id then t.1.amount else 0)) ∧
        (∀ uid, uid ∉ buids (insertRow acc t) →
          P uid + (if tripleUid t = uid then pContrib t else 0) = 0 ∧
          O uid + (if tripleUid t = uid then t.1.amount else 0) = 0) ∧
        (∀ uid, uid ∈ buids (insertRow acc t) ↔
          uid ∈ buids acc ∨ uid = tripleUid t) := by
      by_cases hmem : tripleUid t ∈ buids acc
      · have hb' := buids_insertRow_mem hnd hmem
        refine ⟨by rw [hb']; exact hnd, ?_, ?_, ?_⟩
        · intro b hb
          rw [insertRow_mem hnd hmem] at hb
          obtain ⟨b0, hb0, rfl⟩ := List.mem_map.mp hb
          obtain ⟨o1, o2⟩ := hsum b0 hb0
          by_cases hbu : b0.user_id = tripleUid t
          · rw [if_pos hbu]
            constructor
            · show (bumpBalance t.1 t.2.1 b0).total_paid = _
              simp only [bumpBalance]
              rw [o1, if_pos hbu.symm]
              rfl
            · show (bumpBalance t.1 t.2.1 b0).total_owed = _
              simp only [bumpBalance]
              rw [o2, if_pos hbu.symm]
          · rw [if_neg hbu]
            constructor
            · rw [o1, if_neg (fun hh => hbu hh.symm)]
              ring
            · rw [o2, if_neg (fun hh => hbu hh.symm)]
              ring
        · intro uid hu
          rw [hb'] at hu
          have h0 := hfresh uid hu
          have hne : ¬(tripleUid t = uid) := fun hh => hu (hh ▸ hmem)
          rw [if_neg hne, if_neg hne, h0.1, h0.2]
          simp
        · intro uid
          rw [hb']
          constructor
          · exact Or.inl
          · rintro (hu | rfl)
            · exact hu
            · exact hmem
      · have hb' := buids_insertRow_not_mem hmem
        have hdisj : (buids acc).Disjoint [tripleUid t] :=
          List.disjoint_singleton.mpr hmem
        refine ⟨?_, ?_, ?_, ?_⟩
        · rw [hb']
          exact hnd.append (List.nodup_singleton _) hdisj
        · intro b hb
          rw [insertRow_not_mem hmem] at hb
          rcases List.mem_append.mp hb with hbA | hbN
          · have hne : ¬(tripleUid t = b.user_id) := by
              intro hh
              exact hmem (hh ▸ List.mem_map_of_mem Balance.user_id hbA)
            obtain ⟨o1, o2⟩ := hsum b hbA
            rw [if_neg hne, if_neg hne, o1, o2]
            constructor <;> ring
          · rw [List.mem_singleton] at hbN
            subst hbN
            have h0 := hfresh (tripleUid t) hmem
            constructor
            · show (bumpBalance t.1 t.2.1 (initBalance t.2.2)).total_paid = _
              simp only [bumpBalance, initBalance]
              rw [show P t.2.2.id = (0 : ℚ) from h0.1,
                if_pos (show tripleUid t = t.2.2.id from rfl)]
              rfl
            · show (bumpBalance t.1 t.2.1 (initBalance t.2.2)).total_owed = _
              simp only [bumpBalance, initBalance]
              rw [show O t.2.2.id = (0 : ℚ) from h0.2,
                if_pos (show tripleUid t = t.2.2.id from rfl)]
        · intro uid hu
          rw [hb', List.mem_append, List.mem_singleton] at hu
          push_neg at hu
          have h0 := hfresh uid hu.1
          rw [if_neg (fun hh => hu.2 hh.symm), if_neg (fun hh => hu.2 hh.symm),
            h0.1, h0.2]
          simp
        · intro uid
          rw [hb', List.mem_append, List.mem_singleton]
    obtain ⟨s1, s2, s3, s4⟩ := hstep
    obtain ⟨r1, r2, r3⟩ := ih (insertRow acc t)
      (fun uid => P uid + (if tripleUid t = uid then pContrib t else 0))
      (fun uid => O uid + (if tripleUid t = uid then t.1.amount else 0))
      s1 s2 s3
    refine ⟨r1, ?_, ?_⟩
    · intro uid
      rw [r2 uid, s4 uid, List.map_cons, List.mem_cons]
      tauto
    · intro b hb
      obtain ⟨e1, e2⟩ := r3 b hb
      have e1' : b.total_paid = P b.user_id +
          (if tripleUid t = b.user_id then pContrib t else 0) + pSum ts b.user_id := e1
      have e2' : b.total_owed = O b.user_id +
          (if tripleUid t = b.user_id then t.1.amount else 0) + oSum ts b.user_id := e2
      have hps : pSum (t :: ts) b.user_id =
          (if tripleUid t = b.user_id then pContrib t else 0) + pSum ts b.user_id := by
        simp [pSum]
      have hos : oSum (t :: ts) b.user_id =
          (if tripleUid t = b.user_id then t.1.amount else 0) + oSum ts b.user_id := by
        simp [oSum]
      constructor
      · rw [e1', hps]
        ring
      · rw [e2', hos]
        ring

/-- In a well-formed ledger, the per-user paid total accumulated over the
join equals the spec's total_paid read off the splits table. -/
theorem pSum_eq_totalPaidSpec (db : DB) (group_id user_id : Nat) (hwf : db.WF) :
    pSum (groupJoin db group_id) user_id = totalPaidSpec db group_id user_id := by
  unfold pSum
  rw [groupJoin_eq_flatMap db group_id hwf, sum_map_flatMap_q]
  unfold totalPaidSpec userGroupSplits
  rw [sum_map_filter_q, sum_map_filter_q]
  have hpt : ∀ s ∈ db.splits,
      ((joinedRow db group_id s).map
        (fun t => if tripleUid t = user_id then pContrib t else 0)).sum =
      (if (s.user_id == user_id && splitInGroup db group_id s) = true then
        (if s.paid = true then splitExpenseAmount db s else 0) else 0) := by
    intro s hs
    obtain ⟨e, u, hfe, hfu, heId, huId, heM, huM, hjr⟩ :=
      joinedRow_spec db group_id s hwf.1 hwf.2.1 (hwf.2.2.1 s hs) (hwf.2.2.2.1 s hs)
    have hsg : splitInGroup db group_id s = (e.group_id == some group_id) :=
      splitInGroup_eq db group_id s e hfe
    have hamt : splitExpenseAmount db s = e.amount := by
      unfold splitExpenseAmount
      rw [hfe]
      rfl
    rw [hjr]
    cases hg : (e.group_id == some group_id)
    · have hsg' : splitInGroup db group_id s = false := by rw [hsg, hg]
      simp [hsg']
    · have hsg' : splitInGroup db group_id s = true := by rw [hsg, hg]
      by_cases huid : s.user_id = user_id
      · simp [tripleUid, pContrib, huId, huid, hsg', hamt]
      · simp [tripleUid, huId, huid, hsg']
  rw [List.map_congr_left hpt]

/-- In a well-formed ledger, the per-user owed total accumulated over the
join equals the spec's total_owed read off the splits table. -/
theorem oSum_eq_totalOwedSpec (db : DB) (group_id user_id : Nat) (hwf : db.WF) :
    oSum (groupJoin db group_id) user_id = totalOwedSpec db group_id user_id := by
  unfold oSum
  rw [groupJoin_eq_flatMap db group_id hwf, sum_map_flatMap_q]
  unfold totalOwedSpec userGroupSplits
  rw [sum_map_filter_q]
  have hpt : ∀ s ∈ db.splits,
      ((joinedRow db group_id s).map
        (fun t => if tripleUid t = user_id then t.1.amount else 0)).sum =
      (if (s.user_id == user_id && splitInGroup db group_id s) = true then
        s.amount else 0) := by
    intro s hs
    obtain ⟨e, u, hfe, hfu, heId, huId, heM, huM, hjr⟩ :=
      joinedRow_spec db group_id s hwf.1 hwf.2.1 (hwf.2.2.1 s hs) (hwf.2.2.2.1 s hs)
    have hsg : splitInGroup db group_id s = (e.group_id == some group_id) :=
      splitInGroup_eq db group_id s e hfe
    rw [hjr]
    cases hg : (e.group_id == some group_id)
    · have hsg' : splitInGroup db group_id s = false := by rw [hsg, hg]
      simp [hsg']
    · have hsg' : splitInGroup db group_id s = true := by rw [hsg, hg]
      by_cases huid : s.user_id = user_id
      · simp [tripleUid, huId, huid, hsg']
      · simp [tripleUid, huId, huid, hsg']
  rw [List.map_congr_left hpt]

/-- The users appearing in the join are exactly the users appearing in
some split of the group. -/
theorem mem_join_uid_iff (db : DB) (group_id user_id : Nat) (hwf : db.WF) :
    user_id ∈ (groupJoin db group_id).map tripleUid ↔
      ∃ s ∈ db.splits, s.user_id = user_id ∧ splitInGroup db group_id s = true := by
  rw [groupJoin_eq_flatMap db group_id hwf, List.map_flatMap]
  rw [List.mem_flatMap]
  constructor
  · rintro ⟨s, hs, hmem⟩
    obtain ⟨e, u, hfe, hfu, heId, huId, heM, huM, hjr⟩ :=
      joinedRow_spec db group_id s hwf.1 hwf.2.1 (hwf.2.2.1 s hs) (hwf.2.2.2.1 s hs)
    have hsg : splitInGroup db group_id s = (e.group_id == some group_id) :=
      splitInGroup_eq db group_id s e hfe
    rw [hjr] at hmem
    cases hg : (e.group_id == some group_id)
    · rw [hg] at hmem
      simp at hmem
    · rw [hg] at hmem
      simp only [if_true, List.map_cons, List.map_nil, List.mem_singleton] at hmem
      refine ⟨s, hs, ?_, by rw [hsg, hg]⟩
      rw [hmem]
      exact huId.symm ▸ rfl
  · rintro ⟨s, hs, huid, hing⟩
    obtain ⟨e, u, hfe, hfu, heId, huId, heM, huM, hjr⟩ :=
      joinedRow_spec db group_id s hwf.1 hwf.2.1 (hwf.2.2.1 s hs) (hwf.2.2.2.1 s hs)
    have hsg : splitInGroup db group_id s = (e.group_id == some group_id) :=
      splitInGroup_eq db group_id s e hfe
    have hg : (e.group_id == some group_id) = true := by
      rw [← hsg]
      exact hing
    refine ⟨s, hs, ?_⟩
    rw [hjr, hg]
    simp [tripleUid, huId, huid]

/-- Claim C2: get_group_balances returns one entry per user appearing in
at least one split of the group (ids duplicate-free), and for each entry
total_paid is the sum of expense.amount over that user's paid group
splits, total_owed is the sum of split.amount over all that user's group
splits, and net_balance = total_paid - total_owed. -/
theorem getGroupBalances_correct (db : DB) (group_id : Nat) (hwf : db.WF) :
    ((getGroupBalances db group_id).map Balance.user_id).Nodup ∧
    (∀ uid, uid ∈ (getGroupBalances db group_id).map Balance.user_id ↔
      ∃ s ∈ db.splits, s.user_id = uid ∧ splitInGroup db group_id s = true) ∧
    (∀ b ∈ getGroupBalances db group_id,
      b.total_paid = totalPaidSpec db group_id b.user_id ∧
      b.total_owed = totalOwedSpec db group_id b.user_id ∧
      b.net_balance = b.total_paid - b.total_owed) := by
  obtain ⟨r1, r2, r3⟩ := foldl_insertRow_spec (groupJoin db group_id) []
    (fun _ => 0) (fun _ => 0) (by simp [buids]) (by simp) (by simp)
  have hmap : (getGroupBalances db group_id).map Balance.user_id =
      buids ((groupJoin db group_id).foldl insertRow []) := by
    unfold getGroupBalances buids
    rw [List.map_map]
    rfl
  refine ⟨?_, ?_, ?_⟩
  · rw [hmap]
    exact r1
  · intro uid
    rw [hmap, r2 uid]
    have hj := mem_join_uid_iff db group_id uid hwf
    simp only [buids, List.map_nil, List.not_mem_nil, false_or]
    exact hj
  · intro b hb
    unfold getGroupBalances at hb
    obtain ⟨b0, hb0, rfl⟩ := List.mem_map.mp hb
    obtain ⟨e1, e2⟩ := r3 b0 hb0
    have e1' : b0.total_paid = 0 + pSum (groupJoin db group_id) b0.user_id := e1
    have e2' : b0.total_owed = 0 + oSum (groupJoin db group_id) b0.user_id := e2
    refine ⟨?_, ?_, rfl⟩
    · show b0.total_paid = totalPaidSpec db group_id b0.user_id
      rw [e1', zero_add, pSum_eq_totalPaidSpec db group_id b0.user_id hwf]
    · show b0.total_owed = totalOwedSpec db group_id b0.user_id
      rw [e2', zero_add, oSum_eq_totalOwedSpec db group_id b0.user_id hwf]

/-- Claim C2 witness: the two-split store — one entry per split user, with
the spec sums and net = paid - owed. -/
theorem getGroupBalances_correct_witness :
    c4wdb'.WF ∧
    (((getGroupBalances c4wdb' 1).map Balance.user_id).Nodup ∧
      (∀ uid, uid ∈ (getGroupBalances c4wdb' 1).map Balance.user_id ↔
        ∃ s ∈ c4wdb'.splits, s.user_id = uid ∧ splitInGroup c4wdb' 1 s = true) ∧
      (∀ b ∈ getGroupBalances c4wdb' 1,
        b.total_paid = totalPaidSpec c4wdb' 1 b.user_id ∧
        b.total_owed = totalOwedSpec c4wdb' 1 b.user_id ∧
        b.net_balance = b.total_paid - b.total_owed)) :=
  ⟨by decide, getGroupBalances_correct c4wdb' 1 (by decide)⟩

end ExpenseCat
